import Mathlib

/-!
Value bridge of `shared/helpers/Serialization.cpp`.

A shallow embedding of `V8Helpers::V8ToMValue`, `V8Helpers::MValueToV8`,
`V8Helpers::V8ToRawBytes` and `V8Helpers::RawBytesToV8`, of the raw value codec behind them
(`GetValueType`, `WriteRawValue`, `ReadRawValue`, the two delegates), and of the data they
exchange.

* script values (`v8::Local<v8::Value>`) are the finite trees of `V8Value`; every fallible
  engine call (`Get(...).ToLocal`, `GetOwnPropertyNames`) has its outcome recorded in the tree;
* host values (`alt::MValue`) are the trees of `MValue`;
* external collaborators (resource, registry, serializer and deserializer, numeric casts the
  C++ standard leaves open) are the fields of `Env` and `Codec`;
* log records and thrown script errors are returned as a list of `Diag`.
-/

namespace V8Helpers

/-! ## Data model -/

/-- Raw bytes; every element is meant to be below 256. -/
abbrev Bytes := List Nat

/-- Bit pattern of a single-precision float. -/
abbrev F32 := Nat

/-- A `double` by value: `ofInt n` is the finite double whose value is the integer `n`
(`ofInt 0` is positive zero), `negZero` is `-0.0`, and `nonInt bits` is any other double
(a finite value with a fractional part, an infinity or a NaN), named by its bit pattern. -/
inductive JSNumber where
  | ofInt (n : Int)
  | negZero
  | nonInt (bits : Nat)
deriving DecidableEq, Repr

/-- An `alt::IBaseObject` as far as the bridge reads it: `GetType`, `GetID`, `GetRemoteID`,
`IsRemote`. -/
structure BaseObject where
  type : Nat
  id : Nat
  remoteId : Nat
  isRemote : Bool
deriving DecidableEq, Repr

/-- The tagged union `alt::IMValue::Type`. A `dict` lists its entries in iteration order;
`baseObject none` is a reference whose raw pointer is null. -/
inductive MValue where
  | none
  | nil
  | bool (b : Bool)
  | int (n : Int)
  | uint (n : Nat)
  | double (x : JSNumber)
  | string (s : String)
  | list (items : List MValue)
  | dict (entries : List (String × MValue))
  | baseObject (ref : Option BaseObject)
  | function (fn : Nat)
  | vector3 (x y z : F32)
  | vector2 (x y : F32)
  | rgba (r g b a : Nat)
  | byteArray (data : Bytes)

/-- What the engine and the resource answer about an object: `IsSharedArrayBuffer`,
`IsPromise`, `IsProxy`, `InstanceOf(v8BaseObject)` (a `Maybe<bool>`), the resource tests
`IsVector3`, `IsVector2`, `IsRGBA`, `IsBaseObject`, and `V8Entity::Get` (`none` when there is
no entity, `some none` when the entity has a null handle). -/
structure ObjectTraits where
  isSharedArrayBuffer : Bool
  isPromise : Bool
  isProxy : Bool
  instanceOfBaseObject : Option Bool
  isVector3 : Bool
  isVector2 : Bool
  isRGBA : Bool
  isBaseObject : Bool
  entity : Option (Option BaseObject)
deriving DecidableEq, Repr

/-- A script value as `V8ToMValue` can observe it.

* `array elems`: element `i` is `none` when `Get(ctx, i)` yields no value;
* `map entries`: the array `Map::AsArray()` (`k0, v0, k1, v1, ...`), same convention;
* `object traits namesOk own`: `namesOk` tells whether `GetOwnPropertyNames` succeeds; entry
  `i` of `own` is `none` when `keys->Get(ctx, i)` fails, `some (k, none)` when the key is `k`
  and `Get(ctx, key)` fails, and `some (k, some v)` when the property holds `v`;
* `symbol` stands for the values that are no object and none of the listed primitives. -/
inductive V8Value where
  | empty
  | undefined
  | null
  | boolean (b : Bool)
  | number (x : JSNumber)
  | bigint (n : Int)
  | string (s : String)
  | symbol
  | array (elems : List (Option V8Value))
  | function (fn : Nat)
  | arrayBuffer (data : Bytes)
  | typedArray (hasBuffer : Bool) (buffer : Bytes) (byteOffset byteLength : Nat)
  | map (entries : List (Option V8Value))
  | object (traits : ObjectTraits) (namesOk : Bool) (own : List (Option (String × Option V8Value)))

/-- A record on one of the two diagnostic channels: `Log::Error << ... << Log::Endl`, or a
script error raised with `V8Helpers::Throw` (the `V8_CHECK_RETN` macro). -/
inductive Diag where
  | logError (msg : String)
  | thrown (msg : String)
deriving DecidableEq, Repr

/-- A call made on the `v8::ValueDeserializer` of `RawBytesToV8`. -/
inductive DeserializerCall where
  | construct
  | readHeader
  | readRawBytes (n : Nat)
  | readValue
deriving DecidableEq, Repr

/-- The collaborators of the bridge that live outside `Serialization.cpp`. -/
structure Env where
  /-- The function `V8Helpers::Stringify(ctx, val)`. -/
  stringify : V8Value → String
  /-- The text of `V8Helpers::SourceLocation::GetCurrent(isolate).ToString()`. -/
  sourceLocation : String
  /-- The native function reference the resource binds to a script function. -/
  getFunction : Nat → Nat
  /-- The element a list made by `CreateMValueList(size)` holds in every slot. -/
  emptySlot : MValue
  /-- The unchecked `As<v8::Number>()->Value()` on a value that is no number. -/
  uncheckedNumber : V8Value → JSNumber
  /-- Narrowing of a `double` to `float` (`alt::Vector3f{ ... }`). -/
  f64ToF32 : JSNumber → F32
  /-- Widening of a `float` to `double`. -/
  f32ToF64 : F32 → JSNumber
  /-- `(uint8_t)` of an integer-valued double outside `0..255` (undefined in C++). -/
  castU8OutOfRange : Int → Nat
  /-- `(uint8_t)` of a double that is no integer. -/
  castU8NonInt : Nat → Nat
  /-- The wrapper or null made by `V8ResourceImpl::GetBaseObjectOrNull(ref)`. -/
  getBaseObjectOrNull : Option BaseObject → V8Value
  /-- The callable made by `v8::Function::New(ctx, FunctionCallback, ext)`, if any. -/
  newFunction : Nat → Option V8Value
  /-- Order in which the engine enumerates the own properties of an object built by
  successive `Set` calls. -/
  enumOrder : List (String × V8Value) → List (String × V8Value)
  /-- `ValueDeserializer::ReadHeader`: `none` for `Nothing`, otherwise the flag and the bytes
  left after the header. -/
  readHeader : Bytes → Option (Bool × Bytes)
  /-- `ValueDeserializer::ReadValue` on the bytes left after the magic marker. -/
  readValue : Bytes → Option V8Value
  /-- What `ReadValue` leaves in the buffer in place of the bytes it was given: the
  deserializer works on the storage of the byte array itself, and `ReadRawValue` writes into
  it in a server build (line 399). -/
  readValueLeaves : Bytes → Bytes

/-! ## Engine primitives -/

/-- `Value::IsInt32`: a number that is integral, not minus zero, within `[-2^31, 2^31-1]`. -/
def IsInt32 : JSNumber → Bool
  | .ofInt n => decide (-2147483648 ≤ n ∧ n ≤ 2147483647)
  | _ => false

/-- `Value::IsUint32`: a number that is integral, not minus zero, within `[0, 2^32-1]`. -/
def IsUint32 : JSNumber → Bool
  | .ofInt n => decide (0 ≤ n ∧ n ≤ 4294967295)
  | _ => false

/-- `Int32Value(ctx).ToChecked()` on a number for which `IsInt32` holds. -/
def Int32Value : JSNumber → Int
  | .ofInt n => n
  | _ => 0

/-- `Uint32Value(ctx).ToChecked()` on a number for which `IsUint32` holds. -/
def Uint32Value : JSNumber → Nat
  | .ofInt n => n.toNat
  | _ => 0

/-- `BigInt::Uint64Value(&lossless)`: the low 64 bits, and whether nothing was lost (false for
a negative value and for a value of more than 64 bits). -/
def Uint64Value (b : Int) : Nat × Bool :=
  ((b % 18446744073709551616).toNat, decide (0 ≤ b ∧ b < 18446744073709551616))

/-- `BigInt::Int64Value()`: the low 64 bits read as a signed integer. -/
def Int64Value (b : Int) : Int :=
  (b + 9223372036854775808) % 18446744073709551616 - 9223372036854775808

/-- A `std::string` built from the `char*` of `*v8::String::Utf8Value(...)`: the text up to
the first NUL. -/
def cString (s : String) : String :=
  String.mk (s.data.takeWhile (fun c => c != Char.ofNat 0))

/-- `v8Obj->Get(ctx, key)` for a named key: the outcome recorded for the first own entry with
that key, `undefined` when there is none. -/
def objectGet : List (Option (String × Option V8Value)) → String → Option V8Value
  | [], _ => some V8Value.undefined
  | Option.none :: rest, key => objectGet rest key
  | some (k, r) :: rest, key => if k = key then r else objectGet rest key

/-- `x.As<v8::Number>()->Value()`. -/
def numberValue (env : Env) : V8Value → JSNumber
  | .number x => x
  | v => env.uncheckedNumber v

/-- `(uint8_t)` applied to a double: the value itself inside `0..255`. -/
def doubleToUint8 (env : Env) : JSNumber → Nat
  | .ofInt n => if 0 ≤ n ∧ n ≤ 255 then n.toNat else env.castU8OutOfRange n
  | .negZero => 0
  | .nonInt bits => env.castU8NonInt bits

/-- `IMValueDict::Set(key, value)`: overwrite the entry of that key, or add one. -/
def dictSet : List (String × MValue) → String → MValue → List (String × MValue)
  | [], key, v => [(key, v)]
  | (k, w) :: rest, key, v => if k = key then (k, v) :: rest else (k, w) :: dictSet rest key v

/-- `IMValueDict::Get(key)`. -/
def dictGet : List (String × MValue) → String → Option MValue
  | [], _ => Option.none
  | (k, w) :: rest, key => if k = key then some w else dictGet rest key

/-- `CreateMValueList(size)`: a list of `size` slots. -/
def CreateMValueList (env : Env) (size : Nat) : List MValue :=
  List.replicate size env.emptySlot

/-- Modelled from the spec: `V8ResourceImpl::GetFunction`, missing from the sources, which
wraps a function value as an opaque FunctionRef bound to the calling execution context. -/
def GetFunction (env : Env) (fn : Nat) : MValue :=
  MValue.function (env.getFunction fn)

/-! ## `V8ToMValue` -/

mutual
/-- The function `V8Helpers::V8ToMValue(val, allowFunction)`, with the records it emits. -/
def V8ToMValue (env : Env) : V8Value → Bool → MValue × List Diag
  | .empty, _ => (MValue.none, [])
  | .undefined, _ => (MValue.none, [])
  | .null, _ => (MValue.nil, [])
  | .boolean b, _ => (MValue.bool b, [])
  | .number x, _ =>
    if IsInt32 x then (MValue.int (Int32Value x), [])
    else if IsUint32 x then (MValue.uint (Uint32Value x), [])
    else (MValue.double x, [])
  | .bigint b, _ =>
    if (Uint64Value b).2 then (MValue.uint (Uint64Value b).1, [])
    else (MValue.int (Int64Value b), [])
  | .string s, _ => (MValue.string (cString s), [])
  | .symbol, _ => (MValue.none, [])
  | .array elems, allowFunction =>
    let r := arrayLoop env elems allowFunction 0 (CreateMValueList env elems.length)
    (MValue.list r.1, r.2)
  | .function fn, allowFunction =>
    if !allowFunction then
      (MValue.none, [Diag.logError (env.sourceLocation ++ " " ++ "Cannot convert function to MValue")])
    else (GetFunction env fn, [])
  | .arrayBuffer data, _ => (MValue.byteArray data, [])
  | .typedArray hasBuffer buffer byteOffset byteLength, _ =>
    if !hasBuffer then (MValue.none, [])
    else (MValue.byteArray ((buffer.drop byteOffset).take byteLength), [])
  | .map entries, _ =>
    let r := mapLoop env (env.stringify (V8Value.map entries)) entries []
    (MValue.dict r.1, r.2)
  | .object traits namesOk own, allowFunction =>
    if traits.isVector3 then
      match objectGet own "x", objectGet own "y", objectGet own "z" with
      | some x, some y, some z =>
        (MValue.vector3 (env.f64ToF32 (numberValue env x)) (env.f64ToF32 (numberValue env y))
          (env.f64ToF32 (numberValue env z)), [])
      | _, _, _ => (MValue.nil, [Diag.thrown "Failed to convert Vector3 to MValue"])
    else if traits.isVector2 then
      match objectGet own "x", objectGet own "y" with
      | some x, some y =>
        (MValue.vector2 (env.f64ToF32 (numberValue env x)) (env.f64ToF32 (numberValue env y)), [])
      | _, _ => (MValue.nil, [Diag.thrown "Failed to convert Vector2 to MValue"])
    else if traits.isRGBA then
      match objectGet own "r", objectGet own "g", objectGet own "b", objectGet own "a" with
      | some r, some g, some b, some a =>
        (MValue.rgba (doubleToUint8 env (numberValue env r)) (doubleToUint8 env (numberValue env g))
          (doubleToUint8 env (numberValue env b)) (doubleToUint8 env (numberValue env a)), [])
      | _, _, _, _ => (MValue.nil, [Diag.thrown "Failed to convert RGBA to MValue"])
    else if traits.isBaseObject then
      match traits.entity with
      | Option.none =>
        (MValue.nil, [Diag.thrown
          "Unable to convert base object to MValue because it was destroyed and is now invalid"])
      | some handle => (MValue.baseObject handle, [])
    else if !namesOk then (MValue.nil, [Diag.thrown "Failed to convert object to MValue"])
    else objectLoop env own allowFunction []
/-- The loop of the `IsArray` branch, from index `i` on: a failed `Get` leaves the slot as
it is, a fetched element is stored with `list->Set(i, ...)`. -/
def arrayLoop (env : Env) : List (Option V8Value) → Bool → Nat → List MValue → List MValue × List Diag
  | [], _, _, list => (list, [])
  | Option.none :: rest, allowFunction, i, list => arrayLoop env rest allowFunction (i + 1) list
  | some value :: rest, allowFunction, i, list =>
    let r := V8ToMValue env value allowFunction
    let s := arrayLoop env rest allowFunction (i + 1) (list.set i r.1)
    (s.1, r.2 ++ s.2)
/-- The loop of the `IsMap` branch over the pairs of `mapArr`; `keyString` is
`V8Helpers::Stringify(ctx, val)` of the map itself. -/
def mapLoop (env : Env) (keyString : String) : List (Option V8Value) → List (String × MValue) →
    List (String × MValue) × List Diag
  | [], dict => (dict, [])
  | [Option.none], dict => (dict, [])
  | [some _], dict =>
    if keyString.isEmpty then (dict, [])
    else (dictSet dict keyString MValue.none, [])
  | Option.none :: _ :: rest, dict => mapLoop env keyString rest dict
  | some _ :: Option.none :: rest, dict => mapLoop env keyString rest dict
  | some _ :: some value :: rest, dict =>
    if keyString.isEmpty then mapLoop env keyString rest dict
    else
      let r := V8ToMValue env value false
      let s := mapLoop env keyString rest (dictSet dict keyString r.1)
      (s.1, r.2 ++ s.2)
/-- The loop of the generic object branch over the own property names. -/
def objectLoop (env : Env) : List (Option (String × Option V8Value)) → Bool → List (String × MValue) →
    MValue × List Diag
  | [], _, dict => (MValue.dict dict, [])
  | Option.none :: _, _, _ => (MValue.nil, [Diag.thrown "Failed to convert object to MValue"])
  | some (_, Option.none) :: _, _, _ =>
    (MValue.nil, [Diag.thrown "Failed to convert object to MValue"])
  | some (_, some V8Value.undefined) :: rest, allowFunction, dict =>
    objectLoop env rest allowFunction dict
  | some (key, some value) :: rest, allowFunction, dict =>
    let r := V8ToMValue env value allowFunction
    let s := objectLoop env rest allowFunction (dictSet dict (cString key) r.1)
    (s.1, r.2 ++ s.2)
end

/-! ## `MValueToV8` and `RawBytesToV8` -/

/-- The constant `JS_MAX_SAFE_INTEGER` of `MValueToV8`. -/
def JS_MAX_SAFE_INTEGER : Int := 9007199254740991

/-- The constant `JS_MIN_SAFE_INTEGER` of `MValueToV8`. -/
def JS_MIN_SAFE_INTEGER : Int := JS_MAX_SAFE_INTEGER * -1

/-- Rounding of a magnitude to the nearest double: exact below `2^53`, otherwise kept to 53
significant bits, a tie going to the even neighbour. -/
def roundMagnitude (a : Nat) : Nat :=
  if a < 9007199254740992 then a
  else
    let k := Nat.log2 a - 52
    let q := a / 2 ^ k
    let r := a % 2 ^ k
    let half := 2 ^ (k - 1)
    (if half < r ∨ (r = half ∧ q % 2 = 1) then q + 1 else q) * 2 ^ k

/-- The cast `(double)_val` of a 64-bit integer. -/
def integerToDouble (n : Int) : JSNumber :=
  JSNumber.ofInt (if n < 0 then -(roundMagnitude n.natAbs : Int) else (roundMagnitude n.natAbs : Int))

/-- Whether a bit pattern is that of a NaN: exponent bits all set, fraction not zero. -/
def isNaNBits (bits : Nat) : Bool :=
  decide (bits / 4503599627370496 % 2048 = 2047 ∧ bits % 4503599627370496 ≠ 0)

/-- `v8::Number::New(isolate, value)`, behind `V8Helpers::JSValue(double)`: the number
itself, any NaN replaced by the canonical quiet NaN `0x7FF8000000000000`. -/
def NumberNew : JSNumber → JSNumber
  | .nonInt bits => if isNaNBits bits then JSNumber.nonInt 9221120237041090560 else JSNumber.nonInt bits
  | x => x

/-- The magic bytes that identify raw JS value buffers. -/
def magicBytes : Bytes := ['J', 'S', 'V', 'a', 'l'].map Char.toNat

/-- `ValueDeserializer::ReadRawBytes(n, &ptr)`: the next `n` bytes and what follows them, or
nothing when fewer than `n` bytes are left. -/
def readRawBytes (n : Nat) (data : Bytes) : Option (Bytes × Bytes) :=
  if data.length < n then Option.none else some (data.take n, data.drop n)

/-- The function `V8Helpers::RawBytesToV8(rawBytes)`, with the calls it makes on its
deserializer. What the decode leaves in the storage of `rawBytes` is given by
`RawBytesToV8Leaves`. -/
def RawBytesToV8 (env : Env) (rawBytes : Bytes) : Option V8Value × List DeserializerCall :=
  if rawBytes.length < magicBytes.length then (Option.none, [])
  else
    match env.readHeader rawBytes with
    | Option.none => (Option.none, [DeserializerCall.construct, DeserializerCall.readHeader])
    | some (false, _) => (Option.none, [DeserializerCall.construct, DeserializerCall.readHeader])
    | some (true, rest) =>
      match readRawBytes magicBytes.length rest with
      | Option.none =>
        (Option.none, [DeserializerCall.construct, DeserializerCall.readHeader,
          DeserializerCall.readRawBytes magicBytes.length])
      | some (magic, payload) =>
        if magic ≠ magicBytes then
          (Option.none, [DeserializerCall.construct, DeserializerCall.readHeader,
            DeserializerCall.readRawBytes magicBytes.length])
        else
          (env.readValue payload, [DeserializerCall.construct, DeserializerCall.readHeader,
            DeserializerCall.readRawBytes magicBytes.length, DeserializerCall.readValue])

/-- The bytes of the byte array after `RawBytesToV8` ran on it: the deserializer is given
the storage of the array itself (`rawBytes->GetData()`), so they are the bytes passed in
except where `ReadValue` wrote into the payload. -/
def RawBytesToV8Leaves (env : Env) (rawBytes : Bytes) : Bytes :=
  if rawBytes.length < magicBytes.length then rawBytes
  else
    match env.readHeader rawBytes with
    | some (true, rest) =>
      match readRawBytes magicBytes.length rest with
      | some (magic, payload) =>
        if magic ≠ magicBytes then rawBytes
        else rawBytes.take (rawBytes.length - payload.length) ++ env.readValueLeaves payload
      | Option.none => rawBytes
    | _ => rawBytes

/-- Own data properties after `v8Obj->Set(ctx, key, value)` on an object made by
`v8::Object::New`: the property of that name is overwritten or added, except for the key
`__proto__`, which reaches the setter of `Object.prototype` and leaves no own property (the
change of prototype that setter may make is not followed). -/
def objectSet : List (String × V8Value) → String → V8Value → List (String × V8Value)
  | [], key, v => if key = "__proto__" then [] else [(key, v)]
  | (k, w) :: rest, key, v =>
    if key = "__proto__" then (k, w) :: rest
    else if k = key then (k, v) :: rest else (k, w) :: objectSet rest key v

/-- The traits of an object that is none of the recognised kinds (`v8::Object::New`). -/
def plainTraits : ObjectTraits :=
  { isSharedArrayBuffer := false, isPromise := false, isProxy := false,
    instanceOfBaseObject := some false, isVector3 := false, isVector2 := false,
    isRGBA := false, isBaseObject := false, entity := Option.none }

/-- The own entries of an object whose properties all can be fetched. -/
def ownEntries (props : List (String × V8Value)) : List (Option (String × Option V8Value)) :=
  props.map (fun p => some (p.1, some p.2))

/-- Modelled from the spec: `V8ResourceImpl::CreateVector3`, missing from the sources, the
geometry-object factory making an object the resource recognises as Vector3 with the number
fields x, y, z. -/
def CreateVector3 (env : Env) (x y z : F32) : V8Value :=
  V8Value.object { plainTraits with isVector3 := true } true
    (ownEntries [("x", V8Value.number (NumberNew (env.f32ToF64 x))),
      ("y", V8Value.number (NumberNew (env.f32ToF64 y))),
      ("z", V8Value.number (NumberNew (env.f32ToF64 z)))])

/-- Modelled from the spec: `V8ResourceImpl::CreateVector2`, missing from the sources, the
geometry-object factory making an object the resource recognises as Vector2 with the number
fields x, y. -/
def CreateVector2 (env : Env) (x y : F32) : V8Value :=
  V8Value.object { plainTraits with isVector2 := true } true
    (ownEntries [("x", V8Value.number (NumberNew (env.f32ToF64 x))),
      ("y", V8Value.number (NumberNew (env.f32ToF64 y)))])

/-- Modelled from the spec: `V8ResourceImpl::CreateRGBA`, missing from the sources, the
geometry-object factory making an object the resource recognises as RGBA with the number
fields r, g, b, a. -/
def CreateRGBA (r g b a : Nat) : V8Value :=
  V8Value.object { plainTraits with isRGBA := true } true
    (ownEntries [("r", V8Value.number (JSNumber.ofInt r)), ("g", V8Value.number (JSNumber.ofInt g)),
      ("b", V8Value.number (JSNumber.ofInt b)), ("a", V8Value.number (JSNumber.ofInt a))])

mutual
/-- The function `V8Helpers::MValueToV8(val)`. -/
def MValueToV8 (env : Env) : MValue → V8Value
  | .none => V8Value.undefined
  | .nil => V8Value.null
  | .bool b => V8Value.boolean b
  | .int n =>
    if n ≥ JS_MIN_SAFE_INTEGER ∧ n ≤ JS_MAX_SAFE_INTEGER then
      V8Value.number (NumberNew (integerToDouble n))
    else V8Value.bigint n
  | .uint n =>
    if (n : Int) ≤ JS_MAX_SAFE_INTEGER then V8Value.number (NumberNew (integerToDouble n))
    else V8Value.bigint n
  | .double x => V8Value.number (NumberNew x)
  | .string s => V8Value.string s
  | .list items => V8Value.array (listLoop env items)
  | .dict entries =>
    V8Value.object plainTraits true (ownEntries (env.enumOrder (dictLoop env entries [])))
  | .baseObject ref => env.getBaseObjectOrNull ref
  | .function fn =>
    match env.newFunction fn with
    | some func => func
    | Option.none => V8Value.undefined
  | .vector3 x y z => CreateVector3 env x y z
  | .vector2 x y => CreateVector2 env x y
  | .rgba r g b a => CreateRGBA r g b a
  | .byteArray data =>
    match (RawBytesToV8 env data).1 with
    | some jsVal => jsVal
    | Option.none => V8Value.arrayBuffer (RawBytesToV8Leaves env data)
/-- The loop of the `LIST` case: element `i` of the array is the conversion of item `i`. -/
def listLoop (env : Env) : List MValue → List (Option V8Value)
  | [] => []
  | item :: rest => some (MValueToV8 env item) :: listLoop env rest
/-- The loop of the `DICT` case: one `Set` per entry, in iteration order. -/
def dictLoop (env : Env) : List (String × MValue) → List (String × V8Value) → List (String × V8Value)
  | [], props => props
  | (key, value) :: rest, props => dictLoop env rest (objectSet props key (MValueToV8 env value))
end

/-! ## The raw value codec -/

/-- The enum `RawValueType`, in declaration order: its values are the bytes 0 to 5. -/
inductive RawValueType where
  | INVALID
  | GENERIC
  | BASEOBJECT
  | VECTOR3
  | VECTOR2
  | RGBA
deriving DecidableEq, Repr

/-- The `uint8_t` behind a `RawValueType`. -/
def RawValueType.toByte : RawValueType → Nat
  | .INVALID => 0
  | .GENERIC => 1
  | .BASEOBJECT => 2
  | .VECTOR3 => 3
  | .VECTOR2 => 4
  | .RGBA => 5

/-- A call made on the `v8::ValueSerializer` of `V8ToRawBytes`. -/
inductive SerializerCall where
  | construct
  | writeHeader
  | writeRawBytes (data : Bytes)
  | writeValue
  | release
deriving DecidableEq, Repr

/-- The collaborators of the codec that live outside `Serialization.cpp`. -/
structure Codec where
  /-- Whether the module is built with `ALT_CLIENT_API`. -/
  clientApi : Bool
  /-- What the `BASEOBJECT` case of `WriteRawValue` reads through a null `handle` (undefined
  in C++; `GetValueType` answers `INVALID` for such a value). -/
  nullHandle : BaseObject
  /-- `V8Helpers::SafeToVector3(val, ctx, vec)`: the vector, when it answers true. -/
  safeToVector3 : V8Value → Option (F32 × F32 × F32)
  /-- `V8Helpers::SafeToVector2(val, ctx, vec)`: the vector, when it answers true. -/
  safeToVector2 : V8Value → Option (F32 × F32)
  /-- `V8Helpers::SafeToRGBA(val, ctx, rgba)`: the colour, when it answers true. -/
  safeToRGBA : V8Value → Option (Nat × Nat × Nat × Nat)
  /-- `alt::ICore::GetBaseObjectByID(type, id)`. -/
  getBaseObjectByID : Nat → Nat → Option BaseObject
  /-- `alt::ICore::GetBaseObjectByRemoteID(type, id)`. -/
  getBaseObjectByRemoteID : Nat → Nat → Option BaseObject
  /-- `GetOrCreateEntity(object, "BaseObject")->GetJSVal(isolate)`. -/
  getOrCreateEntity : BaseObject → V8Value
  /-- The type code `alt::IBaseObject::Type::PLAYER`. -/
  typePlayer : Nat
  /-- The type code `alt::IBaseObject::Type::LOCAL_PLAYER`. -/
  typeLocalPlayer : Nat
  /-- The bytes `ValueSerializer::WriteHeader` appends. -/
  writeHeader : Bytes
  /-- `ValueSerializer::WriteValue(ctx, val)` with the `WriteDelegate` installed: its
  `Maybe<bool>` and the bytes it appends. -/
  writeValue : V8Value → Option Bool × Bytes

/-- The traits of a value: those recorded in an object, and for every other value those of a
value that is no shared buffer, promise, proxy or instance of a registered class. -/
def traitsOf : V8Value → ObjectTraits
  | .object traits _ _ => traits
  | _ => plainTraits

/-- The function `GetValueType(ctx, val)`. -/
def GetValueType (val : V8Value) : RawValueType :=
  if (traitsOf val).isSharedArrayBuffer || (traitsOf val).isPromise || (traitsOf val).isProxy then
    RawValueType.INVALID
  else if (traitsOf val).instanceOfBaseObject = some true then
    match (traitsOf val).entity with
    | Option.none => RawValueType.INVALID
    | some Option.none => RawValueType.INVALID
    | some (some _) => RawValueType.BASEOBJECT
  else if (traitsOf val).isVector3 then RawValueType.VECTOR3
  else if (traitsOf val).isVector2 then RawValueType.VECTOR2
  else if (traitsOf val).isRGBA then RawValueType.RGBA
  else RawValueType.GENERIC

/-- The four bytes of a 32-bit word in memory, least significant first. -/
def le32 (n : Nat) : Bytes :=
  [n % 256, n / 256 % 256, n / 65536 % 256, n / 16777216 % 256]

/-- The 32-bit word read from four bytes in memory. -/
def fromLe32 : Bytes → Nat
  | [b0, b1, b2, b3] => b0 + 256 * b1 + 65536 * b2 + 16777216 * b3
  | _ => 0

/-- The first byte of what `ReadRawBytes(1, ...)` points to. -/
def firstByte : Bytes → Nat
  | b :: _ => b
  | [] => 0

/-- The function `WriteRawValue(ctx, serializer, type, val)`: its answer and the bytes it
appends to the serializer. -/
def WriteRawValue (codec : Codec) (type : RawValueType) (val : V8Value) : Bool × Bytes :=
  match type with
  | RawValueType.BASEOBJECT =>
    match (traitsOf val).entity with
    | Option.none => (false, [type.toByte])
    | some entityHandle =>
      let handle := entityHandle.getD codec.nullHandle
      let id := if codec.clientApi then (if handle.isRemote then handle.remoteId else handle.id)
        else handle.id
      let remote := if codec.clientApi then handle.isRemote else true
      (true, [type.toByte] ++ le32 id ++ [handle.type % 256] ++ [if remote then 1 else 0])
  | RawValueType.VECTOR3 =>
    match codec.safeToVector3 val with
    | Option.none => (false, [type.toByte])
    | some (x, y, z) => (true, [type.toByte] ++ le32 x ++ le32 y ++ le32 z)
  | RawValueType.VECTOR2 =>
    match codec.safeToVector2 val with
    | Option.none => (false, [type.toByte])
    | some (x, y) => (true, [type.toByte] ++ le32 x ++ le32 y)
  | RawValueType.RGBA =>
    match codec.safeToRGBA val with
    | Option.none => (false, [type.toByte])
    | some (r, g, b, a) => (true, [type.toByte] ++ [r % 256] ++ [g % 256] ++ [b % 256] ++ [a % 256])
  | _ => (true, [type.toByte])

/-- The function `ReadRawValue(ctx, deserializer)` on the bytes the deserializer has left:
the object it makes, the bytes left afterwards, and the records it emits. What its write
`*type = PLAYER` leaves in the buffer is given by `ReadRawValueLeaves`. -/
def ReadRawValue (env : Env) (codec : Codec) (data : Bytes) : Option V8Value × Bytes × List Diag :=
  match readRawBytes 1 data with
  | Option.none => (Option.none, data, [])
  | some (typeBytes, d1) =>
    if firstByte typeBytes = RawValueType.BASEOBJECT.toByte then
      match readRawBytes 4 d1 with
      | Option.none => (Option.none, d1, [])
      | some (id, d2) =>
        match readRawBytes 1 d2 with
        | Option.none => (Option.none, d2, [])
        | some (type, d3) =>
          match readRawBytes 1 d3 with
          | Option.none => (Option.none, d3, [])
          | some (remote, d4) =>
            let object :=
              if codec.clientApi then
                (if firstByte remote ≠ 0 then
                  codec.getBaseObjectByRemoteID (firstByte type) (fromLe32 id)
                else codec.getBaseObjectByID (firstByte type) (fromLe32 id))
              else
                codec.getBaseObjectByID
                  (if firstByte type = codec.typeLocalPlayer then codec.typePlayer
                    else firstByte type)
                  (fromLe32 id)
            match object with
            | Option.none => (Option.none, d4, [])
            | some handle => (some (codec.getOrCreateEntity handle), d4, [])
    else if firstByte typeBytes = RawValueType.VECTOR3.toByte then
      match readRawBytes 4 d1 with
      | Option.none => (Option.none, d1, [])
      | some (x, d2) =>
        match readRawBytes 4 d2 with
        | Option.none => (Option.none, d2, [])
        | some (y, d3) =>
          match readRawBytes 4 d3 with
          | Option.none => (Option.none, d3, [])
          | some (z, d4) => (some (CreateVector3 env (fromLe32 x) (fromLe32 y) (fromLe32 z)), d4, [])
    else if firstByte typeBytes = RawValueType.VECTOR2.toByte then
      match readRawBytes 4 d1 with
      | Option.none => (Option.none, d1, [])
      | some (x, d2) =>
        match readRawBytes 4 d2 with
        | Option.none => (Option.none, d2, [])
        | some (y, d3) => (some (CreateVector2 env (fromLe32 x) (fromLe32 y)), d3, [])
    else if firstByte typeBytes = RawValueType.RGBA.toByte then
      match readRawBytes 1 d1 with
      | Option.none => (Option.none, d1, [])
      | some (r, d2) =>
        match readRawBytes 1 d2 with
        | Option.none => (Option.none, d2, [])
        | some (g, d3) =>
          match readRawBytes 1 d3 with
          | Option.none => (Option.none, d3, [])
          | some (b, d4) =>
            match readRawBytes 1 d4 with
            | Option.none => (Option.none, d4, [])
            | some (a, d5) =>
              (some (CreateRGBA (firstByte r) (firstByte g) (firstByte b) (firstByte a)), d5, [])
    else
      (Option.none, d1,
        [Diag.logError ("Reading unknown raw value type: " ++ toString (firstByte typeBytes))])

/-- The bytes `ReadRawValue` leaves in the buffer in place of `data`: they are unchanged
except in a server build, where a base object frame read in full has its type byte
overwritten by the player code when it held the local-player code (`*type = PLAYER`, line
399). -/
def ReadRawValueLeaves (codec : Codec) (data : Bytes) : Bytes :=
  match readRawBytes 1 data with
  | Option.none => data
  | some (typeBytes, d1) =>
    if firstByte typeBytes = RawValueType.BASEOBJECT.toByte then
      match readRawBytes 4 d1 with
      | Option.none => data
      | some (id, d2) =>
        match readRawBytes 1 d2 with
        | Option.none => data
        | some (type, d3) =>
          match readRawBytes 1 d3 with
          | Option.none => data
          | some (remote, d4) =>
            if codec.clientApi then data
            else if firstByte type = codec.typeLocalPlayer then
              typeBytes ++ id ++ [codec.typePlayer % 256] ++ remote ++ d4
            else data
    else data

/-- The method `WriteDelegate::WriteHostObject(isolate, object)`: its `Maybe<bool>`, the bytes
it appends to the serializer, and the errors it throws. -/
def WriteHostObject (codec : Codec) (object : V8Value) : Option Bool × Bytes × List Diag :=
  if GetValueType object = RawValueType.INVALID then (Option.none, [], [])
  else if !(WriteRawValue codec (GetValueType object) object).1 then
    (Option.none, (WriteRawValue codec (GetValueType object) object).2,
      [Diag.thrown "Tried to write invalid raw value (functions or promises are not supported)"])
  else (some true, (WriteRawValue codec (GetValueType object) object).2, [])

/-- The method `ReadDelegate::ReadHostObject(isolate)`. -/
def ReadHostObject (env : Env) (codec : Codec) (data : Bytes) : Option V8Value × Bytes × List Diag :=
  ReadRawValue env codec data

/-- The function `V8Helpers::V8ToRawBytes(val)`: the byte array it returns (none for the
empty reference) and the calls it makes on its serializer. -/
def V8ToRawBytes (codec : Codec) (val : V8Value) : Option Bytes × List SerializerCall :=
  if GetValueType val = RawValueType.INVALID then (Option.none, [])
  else
    match codec.writeValue val with
    | (some true, payload) =>
      (some (codec.writeHeader ++ magicBytes ++ payload),
        [SerializerCall.construct, SerializerCall.writeHeader,
          SerializerCall.writeRawBytes magicBytes, SerializerCall.writeValue,
          SerializerCall.release])
    | _ =>
      (Option.none, [SerializerCall.construct, SerializerCall.writeHeader,
        SerializerCall.writeRawBytes magicBytes, SerializerCall.writeValue])

/-! ## A sample environment -/

/-- An environment for evaluating the bridge on concrete values: a registry that resolves
every non-null handle to its wrapper, a header of the two bytes `255, 15`, and a payload
reader that accepts nothing. -/
def sampleEnv : Env :=
  { stringify := fun v => match v with
      | V8Value.string s => s
      | V8Value.map _ => "[object Map]"
      | _ => "",
    sourceLocation := "[main.js:1]",
    getFunction := fun fn => fn,
    emptySlot := MValue.none,
    uncheckedNumber := fun _ => JSNumber.ofInt 0,
    f64ToF32 := fun x => match x with
      | JSNumber.ofInt n => n.toNat
      | _ => 0,
    f32ToF64 := fun f => JSNumber.ofInt f,
    castU8OutOfRange := fun n => (n % 256).toNat,
    castU8NonInt := fun _ => 0,
    getBaseObjectOrNull := fun ref => match ref with
      | some h => V8Value.object { plainTraits with isBaseObject := true, entity := some (some h) } true []
      | Option.none => V8Value.null,
    newFunction := fun _ => Option.none,
    enumOrder := fun props => props,
    readHeader := fun data => match data with
      | 255 :: 15 :: rest => some (true, rest)
      | _ => Option.none,
    readValue := fun _ => Option.none,
    readValueLeaves := fun payload => payload }

/-- A wrapper object of the registered base object class bound to the handle `h`. -/
def wrapperOf (h : BaseObject) : V8Value :=
  V8Value.object
    { plainTraits with instanceOfBaseObject := some true, isBaseObject := true,
                       entity := some (some h) }
    true []

/-- A server-side codec for evaluating on concrete values: vectors and colours are read from
the number fields of the object, the registry knows the ids 0, 1, 2 (remote ids 100, 101,
102), and the serializer writes the header `255, 15` and accepts nothing but `null`. -/
def sampleCodec : Codec :=
  { clientApi := false,
    nullHandle := { type := 0, id := 0, remoteId := 0, isRemote := false },
    safeToVector3 := fun v => match v with
      | V8Value.object _ _ own =>
        (match objectGet own "x", objectGet own "y", objectGet own "z" with
          | some (V8Value.number x), some (V8Value.number y), some (V8Value.number z) =>
            some (sampleEnv.f64ToF32 x, sampleEnv.f64ToF32 y, sampleEnv.f64ToF32 z)
          | _, _, _ => Option.none)
      | _ => Option.none,
    safeToVector2 := fun v => match v with
      | V8Value.object _ _ own =>
        (match objectGet own "x", objectGet own "y" with
          | some (V8Value.number x), some (V8Value.number y) =>
            some (sampleEnv.f64ToF32 x, sampleEnv.f64ToF32 y)
          | _, _ => Option.none)
      | _ => Option.none,
    safeToRGBA := fun v => match v with
      | V8Value.object _ _ own =>
        (match objectGet own "r", objectGet own "g", objectGet own "b", objectGet own "a" with
          | some (V8Value.number r), some (V8Value.number g), some (V8Value.number b),
              some (V8Value.number a) =>
            some (doubleToUint8 sampleEnv r, doubleToUint8 sampleEnv g, doubleToUint8 sampleEnv b,
              doubleToUint8 sampleEnv a)
          | _, _, _, _ => Option.none)
      | _ => Option.none,
    getBaseObjectByID := fun type id =>
      if id < 3 then some { type := type, id := id, remoteId := id + 100, isRemote := false }
      else Option.none,
    getBaseObjectByRemoteID := fun type id =>
      if 100 ≤ id ∧ id < 103 then some { type := type, id := id - 100, remoteId := id, isRemote := true }
      else Option.none,
    getOrCreateEntity := fun h => sampleEnv.getBaseObjectOrNull (some h),
    typePlayer := 0,
    typeLocalPlayer := 14,
    writeHeader := [255, 15],
    writeValue := fun v => match v with
      | V8Value.null => (some true, [48])
      | _ => (Option.none, []) }

/-- The sample environment with a deserializer that reads one host object: a payload made of
the tag byte 92 and a frame is decoded by `ReadRawValue` of the server-side sample codec. -/
def sampleServerEnv : Env :=
  { sampleEnv with
    readValue := fun payload => match payload with
      | 92 :: frame => (ReadRawValue sampleEnv sampleCodec frame).1
      | _ => Option.none,
    readValueLeaves := fun payload => match payload with
      | 92 :: frame => 92 :: ReadRawValueLeaves sampleCodec frame
      | _ => payload }

/-- The last own property stored under the C string `key` whose value is not `undefined`. -/
def lastDefined : List (String × V8Value) → String → Option V8Value
  | [], _ => Option.none
  | (k, v) :: rest, key =>
    match lastDefined rest key with
    | some w => some w
    | Option.none =>
      if cString k = key then
        (match v with
          | V8Value.undefined => Option.none
          | w => some w)
      else Option.none

/-! ## Round trips -/

/-- The number an `Int`, `UInt` or `Double` value holds. -/
def numberOf : MValue → Option JSNumber
  | .int n => some (JSNumber.ofInt n)
  | .uint n => some (JSNumber.ofInt n)
  | .double x => some x
  | _ => Option.none

/-- The registry resolves the handle: `GetBaseObjectOrNull` answers with a wrapper that the
resource recognises as a base object, and as no geometry kind, bound to that same handle. -/
def Resolves (env : Env) (ref : Option BaseObject) : Prop :=
  ∃ traits namesOk own, env.getBaseObjectOrNull ref = V8Value.object traits namesOk own ∧
    traits.isVector3 = false ∧ traits.isVector2 = false ∧ traits.isRGBA = false ∧
    traits.isBaseObject = true ∧ traits.entity = some ref

mutual
/-- The host values a round trip can carry: integers within their 64-bit types, doubles
other than a NaN with a payload, strings and Dict keys without a NUL, Dict keys distinct and
other than `__proto__`, no Dict value `None`, handles the registry resolves, no FunctionRef,
float components that survive widening, `Number::New` and narrowing, channels within a byte,
and no byte array that `RawBytesToV8` decodes or alters. -/
def Transferable (env : Env) : MValue → Prop
  | .none => True
  | .nil => True
  | .bool _ => True
  | .int n => -9223372036854775808 ≤ n ∧ n ≤ 9223372036854775807
  | .uint n => n ≤ 18446744073709551615
  | .double x => NumberNew x = x
  | .string s => cString s = s
  | .list items => TransferableItems env items
  | .dict entries => TransferableEntries env entries ∧ (entries.map Prod.fst).Nodup
  | .baseObject ref => Resolves env ref
  | .function _ => False
  | .vector3 x y z =>
    env.f64ToF32 (NumberNew (env.f32ToF64 x)) = x ∧ env.f64ToF32 (NumberNew (env.f32ToF64 y)) = y ∧
      env.f64ToF32 (NumberNew (env.f32ToF64 z)) = z
  | .vector2 x y =>
    env.f64ToF32 (NumberNew (env.f32ToF64 x)) = x ∧ env.f64ToF32 (NumberNew (env.f32ToF64 y)) = y
  | .rgba r g b a => r ≤ 255 ∧ g ≤ 255 ∧ b ≤ 255 ∧ a ≤ 255
  | .byteArray data =>
    (RawBytesToV8 env data).1 = Option.none ∧ RawBytesToV8Leaves env data = data
/-- Every item of a List is transferable. -/
def TransferableItems (env : Env) : List MValue → Prop
  | [] => True
  | item :: rest => Transferable env item ∧ TransferableItems env rest
/-- Every entry of a Dict has a NUL-free key other than `__proto__` and a transferable value
other than `None`. -/
def TransferableEntries (env : Env) : List (String × MValue) → Prop
  | [] => True
  | (key, value) :: rest =>
    cString key = key ∧ key ≠ "__proto__" ∧ value ≠ MValue.none ∧ Transferable env value ∧
      TransferableEntries env rest
end

mutual
/-- Two host values agree up to the numeric tag: equal leaves, or `Int`/`UInt`/`Double`
leaves holding the same number; Lists agree item by item; Dicts hold the same keys with
agreeing values, in any order. -/
inductive SameValue : MValue → MValue → Prop where
  | same (v : MValue) : SameValue v v
  | number (a b : MValue) (x : JSNumber) (ha : numberOf a = some x) (hb : numberOf b = some x) :
    SameValue a b
  | list (items items2 : List MValue) (h : SameItems items items2) :
    SameValue (MValue.list items) (MValue.list items2)
  | dict (entries entries2 entries3 : List (String × MValue)) (h : SameEntries entries entries2)
    (hp : entries2.Perm entries3) : SameValue (MValue.dict entries) (MValue.dict entries3)
/-- Item-wise agreement of two Lists. -/
inductive SameItems : List MValue → List MValue → Prop where
  | nil : SameItems [] []
  | cons (a b : MValue) (l l2 : List MValue) (h : SameValue a b) (t : SameItems l l2) :
    SameItems (a :: l) (b :: l2)
/-- Entry-wise agreement of two Dicts listed in the same order. -/
inductive SameEntries : List (String × MValue) → List (String × MValue) → Prop where
  | nil : SameEntries [] []
  | cons (k : String) (a b : MValue) (d d2 : List (String × MValue)) (h : SameValue a b)
    (t : SameEntries d d2) : SameEntries ((k, a) :: d) ((k, b) :: d2)
end

/-! ## Map entries, the client build, call depth -/

/-- The value of the last pair of `Map::AsArray()` whose key and value were both fetched; a
key left without a partner at the end of the array has the value `undefined`. -/
def lastFetchedValue : List (Option V8Value) → Option V8Value
  | [] => Option.none
  | [Option.none] => Option.none
  | [some _] => some V8Value.undefined
  | Option.none :: _ :: rest => lastFetchedValue rest
  | some _ :: Option.none :: rest => lastFetchedValue rest
  | some _ :: some value :: rest =>
    match lastFetchedValue rest with
    | some later => some later
    | Option.none => some value

/-- The sample codec built with `ALT_CLIENT_API`. -/
def sampleClientCodec : Codec :=
  { sampleCodec with clientApi := true }

mutual
/-- The number of levels of a host value: 1 for a value that contains no other, one more
than its deepest item or entry for a List or Dict. -/
def nestingDepth : MValue → Nat
  | .list items => 1 + nestingDepthItems items
  | .dict entries => 1 + nestingDepthEntries entries
  | _ => 1
/-- The number of levels of the deepest item, 0 when there is none. -/
def nestingDepthItems : List MValue → Nat
  | [] => 0
  | item :: rest => max (nestingDepth item) (nestingDepthItems rest)
/-- The number of levels of the deepest entry value, 0 when there is none. -/
def nestingDepthEntries : List (String × MValue) → Nat
  | [] => 0
  | (_, value) :: rest => max (nestingDepth value) (nestingDepthEntries rest)
end

mutual
/-- The function `V8Helpers::MValueToV8(val)` run with room for `frames` nested activations
of itself on the call stack: `none` when a call finds no room left. -/
def MValueToV8Bounded (env : Env) : MValue → Nat → Option V8Value
  | _, 0 => Option.none
  | .none, _ + 1 => some V8Value.undefined
  | .nil, _ + 1 => some V8Value.null
  | .bool b, _ + 1 => some (V8Value.boolean b)
  | .int n, _ + 1 =>
    if n ≥ JS_MIN_SAFE_INTEGER ∧ n ≤ JS_MAX_SAFE_INTEGER then
      some (V8Value.number (NumberNew (integerToDouble n)))
    else some (V8Value.bigint n)
  | .uint n, _ + 1 =>
    if (n : Int) ≤ JS_MAX_SAFE_INTEGER then
      some (V8Value.number (NumberNew (integerToDouble n)))
    else some (V8Value.bigint n)
  | .double x, _ + 1 => some (V8Value.number (NumberNew x))
  | .string s, _ + 1 => some (V8Value.string s)
  | .list items, frames + 1 =>
    match listLoopBounded env items frames with
    | some elems => some (V8Value.array elems)
    | Option.none => Option.none
  | .dict entries, frames + 1 =>
    match dictLoopBounded env entries frames [] with
    | some props => some (V8Value.object plainTraits true (ownEntries (env.enumOrder props)))
    | Option.none => Option.none
  | .baseObject ref, _ + 1 => some (env.getBaseObjectOrNull ref)
  | .function fn, _ + 1 =>
    match env.newFunction fn with
    | some func => some func
    | Option.none => some V8Value.undefined
  | .vector3 x y z, _ + 1 => some (CreateVector3 env x y z)
  | .vector2 x y, _ + 1 => some (CreateVector2 env x y)
  | .rgba r g b a, _ + 1 => some (CreateRGBA r g b a)
  | .byteArray data, _ + 1 =>
    match (RawBytesToV8 env data).1 with
    | some jsVal => some jsVal
    | Option.none => some (V8Value.arrayBuffer (RawBytesToV8Leaves env data))
/-- The loop of the `LIST` case, each call of `MValueToV8` having room for `frames`
activations. -/
def listLoopBounded (env : Env) : List MValue → Nat → Option (List (Option V8Value))
  | [], _ => some []
  | item :: rest, frames =>
    match MValueToV8Bounded env item frames with
    | Option.none => Option.none
    | some v =>
      match listLoopBounded env rest frames with
      | Option.none => Option.none
      | some elems => some (some v :: elems)
/-- The loop of the `DICT` case, each call of `MValueToV8` having room for `frames`
activations. -/
def dictLoopBounded (env : Env) : List (String × MValue) → Nat → List (String × V8Value) →
    Option (List (String × V8Value))
  | [], _, props => some props
  | (key, value) :: rest, frames, props =>
    match MValueToV8Bounded env value frames with
    | Option.none => Option.none
    | some v => dictLoopBounded env rest frames (objectSet props key v)
end

/-! ## Numbers -/

theorem roundMagnitude_of_lt (a : Nat) (h : a < 9007199254740992) : roundMagnitude a = a := by
  simp [roundMagnitude, h]

theorem NumberNew_ofInt (n : Int) : NumberNew (JSNumber.ofInt n) = JSNumber.ofInt n := rfl

theorem integerToDouble_of_safe (n : Int) (h1 : -9007199254740991 ≤ n) (h2 : n ≤ 9007199254740991) :
    integerToDouble n = JSNumber.ofInt n := by
  have ha : n.natAbs < 9007199254740992 := by omega
  unfold integerToDouble
  rw [roundMagnitude_of_lt _ ha]
  congr 1
  split <;> omega

/-- C2. Safe-integer boundary: `MValueToV8` turns an Int `n` into the number equal to `n`
exactly when `-9007199254740991 ≤ n ≤ 9007199254740991` and into the big integer `n`
otherwise, a UInt `n` into the number equal to `n` exactly when `n ≤ 9007199254740991` and
into the big integer `n` otherwise; UInt 9007199254740991 becomes the number
9007199254740991 and UInt 9007199254740992 a big integer. -/
theorem MValueToV8_safe_integer_boundary (env : Env) :
    (∀ n : Int, MValueToV8 env (MValue.int n) =
      if -9007199254740991 ≤ n ∧ n ≤ 9007199254740991 then V8Value.number (JSNumber.ofInt n)
      else V8Value.bigint n) ∧
    (∀ n : Nat, MValueToV8 env (MValue.uint n) =
      if n ≤ 9007199254740991 then V8Value.number (JSNumber.ofInt n) else V8Value.bigint n) ∧
    MValueToV8 env (MValue.uint 9007199254740991) = V8Value.number (JSNumber.ofInt 9007199254740991) ∧
    MValueToV8 env (MValue.uint 9007199254740992) = V8Value.bigint 9007199254740992 := by
  have hint : ∀ n : Int, MValueToV8 env (MValue.int n) =
      if -9007199254740991 ≤ n ∧ n ≤ 9007199254740991 then V8Value.number (JSNumber.ofInt n)
      else V8Value.bigint n := by
    intro n
    simp only [MValueToV8, JS_MIN_SAFE_INTEGER, JS_MAX_SAFE_INTEGER]
    by_cases h : -9007199254740991 ≤ n ∧ n ≤ 9007199254740991
    · rw [if_pos h, if_pos (by omega), integerToDouble_of_safe n h.1 h.2, NumberNew_ofInt]
    · rw [if_neg h, if_neg (by omega)]
  have huint : ∀ n : Nat, MValueToV8 env (MValue.uint n) =
      if n ≤ 9007199254740991 then V8Value.number (JSNumber.ofInt n) else V8Value.bigint n := by
    intro n
    simp only [MValueToV8, JS_MAX_SAFE_INTEGER]
    by_cases h : n ≤ 9007199254740991
    · rw [if_pos h, if_pos (by omega), integerToDouble_of_safe n (by omega) (by omega),
        NumberNew_ofInt]
    · rw [if_neg h, if_neg (by omega)]
  refine ⟨hint, huint, ?_, ?_⟩
  · rw [huint]; rfl
  · rw [huint]; rfl

/-- Inside the 64-bit ranges the `IsBigInt` branch follows the sign: a big integer in
`[0, 2^64)` gives UInt of itself, one in `[-2^63, 0)` gives Int of itself. -/
theorem V8ToMValue_bigint_in_range (env : Env) (b : Int) (allowFunction : Bool) :
    (0 ≤ b → b < 18446744073709551616 →
      V8ToMValue env (V8Value.bigint b) allowFunction = (MValue.uint b.toNat, [])) ∧
    (-9223372036854775808 ≤ b → b < 0 →
      V8ToMValue env (V8Value.bigint b) allowFunction = (MValue.int b, [])) := by
  constructor
  · intro h0 h1
    have hm : b % 18446744073709551616 = b := Int.emod_eq_of_lt h0 h1
    simp [V8ToMValue, Uint64Value, h0, h1, hm]
  · intro h0 h1
    have hm : (b + 9223372036854775808) % 18446744073709551616 = b + 9223372036854775808 :=
      Int.emod_eq_of_lt (by omega) (by omega)
    have hn : ¬ (0 ≤ b) := by omega
    simp [V8ToMValue, Uint64Value, Int64Value, hn, hm]

/-- C3. At the big integer `2^64`, which is not negative, `V8ToMValue` returns `Int 0` and not
a UInt: the flag it reads from `Uint64Value` reports a lossless conversion, not the sign. -/
theorem V8ToMValue_bigint_two_pow_64 (env : Env) (allowFunction : Bool) :
    V8ToMValue env (V8Value.bigint 18446744073709551616) allowFunction = (MValue.int 0, []) := by
  simp [V8ToMValue, Uint64Value, Int64Value]

/-! ## Arrays -/

theorem arrayLoop_length (env : Env) (allowFunction : Bool) :
    ∀ (elems : List (Option V8Value)) (i : Nat) (list : List MValue),
      (arrayLoop env elems allowFunction i list).1.length = list.length := by
  intro elems
  induction elems with
  | nil => intro i list; simp [arrayLoop]
  | cons e rest ih =>
    intro i list
    cases e with
    | none => simp [arrayLoop, ih]
    | some v => simp [arrayLoop, ih]

theorem arrayLoop_getElem? (env : Env) (allowFunction : Bool) :
    ∀ (elems : List (Option V8Value)) (i : Nat) (list : List MValue) (j : Nat),
      (arrayLoop env elems allowFunction i list).1[j]? =
        if j < i then list[j]?
        else match elems[j - i]? with
          | some (some v) =>
            if j < list.length then some (V8ToMValue env v allowFunction).1 else Option.none
          | _ => list[j]? := by
  intro elems
  induction elems with
  | nil => intro i list j; simp [arrayLoop]
  | cons e rest ih =>
    intro i list j
    cases e with
    | none =>
      simp only [arrayLoop]
      rw [ih]
      by_cases h1 : j < i
      · simp [h1, Nat.lt_succ_of_lt h1]
      · by_cases h2 : j = i
        · subst h2; simp
        · have h3 : ¬ j < i + 1 := by omega
          have h4 : j - i = (j - (i + 1)) + 1 := by omega
          simp only [h1, h3, if_false]
          rw [h4, List.getElem?_cons_succ]
    | some v =>
      simp only [arrayLoop]
      rw [ih]
      by_cases h1 : j < i
      · have h2 : i ≠ j := by omega
        simp [h1, Nat.lt_succ_of_lt h1, List.getElem?_set_ne h2]
      · by_cases h2 : j = i
        · subst h2
          simp only [Nat.lt_succ_self, if_true, Nat.lt_irrefl, if_false, Nat.sub_self,
            List.getElem?_cons_zero, List.getElem?_set, if_true]
        · have h3 : ¬ j < i + 1 := by omega
          have h4 : j - i = (j - (i + 1)) + 1 := by omega
          have h5 : i ≠ j := by omega
          simp only [h1, h3, if_false, List.length_set, List.getElem?_set_ne h5]
          rw [h4, List.getElem?_cons_succ]

/-- C4, the claim at a concrete array: for the array of length 3 whose index 1 cannot be
fetched the List has three items, the untouched slot among them, and its length is not 2. -/
theorem V8ToMValue_array_gap_keeps_length :
    (V8ToMValue sampleEnv (V8Value.array [some (V8Value.number (JSNumber.ofInt 1)), Option.none,
      some (V8Value.number (JSNumber.ofInt 3))]) true).1
      = MValue.list [MValue.int 1, sampleEnv.emptySlot, MValue.int 3] ∧
    ¬ ([MValue.int 1, sampleEnv.emptySlot, MValue.int 3].length = 2) := by
  constructor
  · rfl
  · decide

/-- C4, amended. For every array `V8ToMValue` returns a List with as many items as the array
has elements: item `i` is the conversion of element `i` when its fetch succeeded and the slot
`CreateMValueList` made when it failed. -/
theorem V8ToMValue_array_slots (env : Env) (elems : List (Option V8Value)) (allowFunction : Bool) :
    ∃ items, (V8ToMValue env (V8Value.array elems) allowFunction).1 = MValue.list items ∧
      items.length = elems.length ∧
      ∀ i, i < elems.length → items[i]? = some (match elems[i]? with
        | some (some v) => (V8ToMValue env v allowFunction).1
        | _ => env.emptySlot) := by
  refine ⟨(arrayLoop env elems allowFunction 0 (CreateMValueList env elems.length)).1, ?_, ?_, ?_⟩
  · simp [V8ToMValue]
  · rw [arrayLoop_length]; simp [CreateMValueList]
  · intro i hi
    rw [arrayLoop_getElem?]
    simp only [Nat.not_lt_zero, if_false, Nat.sub_zero, CreateMValueList, List.length_replicate,
      hi, if_true, List.getElem?_replicate]
    cases h : elems[i]? with
    | none => rfl
    | some e =>
      cases e with
      | none => rfl
      | some v => rfl

/-! ## Maps, numbers, functions -/

/-- C5. At the Map with the single entry `"a" → 1` the entry is stored under the
stringification of the whole map, `"[object Map]"`, although its own key stringifies to
`"a"`. -/
theorem V8ToMValue_map_key_is_map_string :
    (V8ToMValue sampleEnv (V8Value.map [some (V8Value.string "a"),
      some (V8Value.number (JSNumber.ofInt 1))]) true).1
      = MValue.dict [("[object Map]", MValue.int 1)] ∧
    sampleEnv.stringify (V8Value.string "a") = "a" := by
  constructor
  · rfl
  · rfl

/-- C6. Number classification: a number that is not a big integer becomes `Int` of its value
when it is an integer within `[-2^31, 2^31-1]`, `UInt` of its value when it is an integer
within `[2^31, 2^32-1]`, and `Double` of itself in every other case (minus zero and the
doubles that are no integers included); where both 32-bit tests hold the result is `Int`. -/
theorem V8ToMValue_number_classification (env : Env) (x : JSNumber) (allowFunction : Bool) :
    (∀ n : Int, x = JSNumber.ofInt n → -2147483648 ≤ n → n ≤ 2147483647 →
      V8ToMValue env (V8Value.number x) allowFunction = (MValue.int n, [])) ∧
    (∀ n : Int, x = JSNumber.ofInt n → 2147483648 ≤ n → n ≤ 4294967295 →
      V8ToMValue env (V8Value.number x) allowFunction = (MValue.uint n.toNat, [])) ∧
    ((∀ n : Int, x = JSNumber.ofInt n → n < -2147483648 ∨ 4294967295 < n) →
      V8ToMValue env (V8Value.number x) allowFunction = (MValue.double x, [])) ∧
    (IsInt32 x = true → IsUint32 x = true →
      V8ToMValue env (V8Value.number x) allowFunction = (MValue.int (Int32Value x), [])) := by
  refine ⟨?_, ?_, ?_, ?_⟩
  · intro n hx h1 h2
    subst hx
    simp [V8ToMValue, IsInt32, Int32Value, h1, h2]
  · intro n hx h1 h2
    subst hx
    have h3 : ¬ n ≤ 2147483647 := by omega
    have h4 : 0 ≤ n := by omega
    simp [V8ToMValue, IsInt32, IsUint32, Uint32Value, h2, h3, h4]
  · intro h
    cases x with
    | ofInt n =>
      have hn := h n rfl
      have h1 : ¬ (-2147483648 ≤ n ∧ n ≤ 2147483647) := by omega
      have h2 : ¬ (0 ≤ n ∧ n ≤ 4294967295) := by omega
      simp [V8ToMValue, IsInt32, IsUint32, h1, h2]
    | negZero => simp [V8ToMValue, IsInt32, IsUint32]
    | nonInt bits => simp [V8ToMValue, IsInt32, IsUint32]
  · intro h1 _
    simp [V8ToMValue, h1]

/-- C8. Dropped function: with `allowFunction = false` a function value gives `None` and the
one record `Log::Error` writes; with `allowFunction = true` it gives the FunctionRef made by
the resource and no record. -/
theorem V8ToMValue_function (env : Env) (fn : Nat) :
    V8ToMValue env (V8Value.function fn) false =
      (MValue.none, [Diag.logError (env.sourceLocation ++ " " ++ "Cannot convert function to MValue")]) ∧
    (V8ToMValue env (V8Value.function fn) false).2.length = 1 ∧
    V8ToMValue env (V8Value.function fn) true = (MValue.function (env.getFunction fn), []) := by
  simp [V8ToMValue, GetFunction]

/-! ## Generic objects -/

theorem dictGet_dictSet (d : List (String × MValue)) (k key : String) (v : MValue) :
    dictGet (dictSet d k v) key = if k = key then some v else dictGet d key := by
  induction d with
  | nil => simp [dictSet, dictGet]
  | cons e rest ih =>
    obtain ⟨k0, w⟩ := e
    by_cases h0 : k0 = k
    · subst h0
      by_cases h1 : k0 = key
      · simp [dictSet, dictGet, h1]
      · simp [dictSet, dictGet, h1]
    · by_cases h1 : k0 = key
      · subst h1
        have h2 : ¬ k = k0 := fun h => h0 h.symm
        simp [dictSet, dictGet, h0, h2]
      · simp [dictSet, dictGet, h0, h1, ih]

theorem objectLoop_fetched (env : Env) (allowFunction : Bool) :
    ∀ (props : List (String × V8Value)) (dict : List (String × MValue)),
      ∃ d, (objectLoop env (ownEntries props) allowFunction dict).1 = MValue.dict d ∧
        ∀ key, dictGet d key =
          match lastDefined props key with
          | some v => some (V8ToMValue env v allowFunction).1
          | Option.none => dictGet dict key := by
  intro props
  induction props with
  | nil => intro dict; exact ⟨dict, by simp [ownEntries, objectLoop], by simp [lastDefined]⟩
  | cons p rest ih =>
    intro dict
    obtain ⟨k, v⟩ := p
    by_cases hv : v = V8Value.undefined
    · subst hv
      obtain ⟨d, hd, hget⟩ := ih dict
      refine ⟨d, ?_, ?_⟩
      · simpa [ownEntries, objectLoop] using hd
      · intro key
        rw [hget key]
        cases h : lastDefined rest key <;> simp [lastDefined, h]
    · obtain ⟨d, hd, hget⟩ := ih (dictSet dict (cString k) (V8ToMValue env v allowFunction).1)
      refine ⟨d, ?_, ?_⟩
      · have hstep : objectLoop env (ownEntries ((k, v) :: rest)) allowFunction dict =
            ((objectLoop env (ownEntries rest) allowFunction
                (dictSet dict (cString k) (V8ToMValue env v allowFunction).1)).1,
              (V8ToMValue env v allowFunction).2 ++
                (objectLoop env (ownEntries rest) allowFunction
                  (dictSet dict (cString k) (V8ToMValue env v allowFunction).1)).2) := by
          cases v <;> first | exact absurd rfl hv | simp [ownEntries, objectLoop]
        rw [hstep]
        exact hd
      · intro key
        rw [hget key, dictGet_dictSet]
        cases h : lastDefined rest key with
        | some w => simp [lastDefined, h]
        | none =>
          by_cases hk : cString k = key
          · cases v <;> first | exact absurd rfl hv | simp [lastDefined, h, hk]
          · simp [lastDefined, h, hk]

theorem objectLoop_abort (env : Env) (allowFunction : Bool) :
    ∀ (own : List (Option (String × Option V8Value))) (dict : List (String × MValue)),
      (∃ e ∈ own, e = Option.none ∨ ∃ k, e = some (k, Option.none)) →
      (objectLoop env own allowFunction dict).1 = MValue.nil := by
  intro own
  induction own with
  | nil => intro dict h; obtain ⟨e, he, _⟩ := h; cases he
  | cons e0 rest ih =>
    intro dict h
    have hrest : (∃ e ∈ rest, e = Option.none ∨ ∃ k, e = some (k, Option.none)) →
        ∀ dict, (objectLoop env rest allowFunction dict).1 = MValue.nil :=
      fun h dict => ih dict h
    cases e0 with
    | none => simp [objectLoop]
    | some kv =>
      obtain ⟨k, r⟩ := kv
      cases r with
      | none => simp [objectLoop]
      | some v =>
        have hin : ∃ e ∈ rest, e = Option.none ∨ ∃ k, e = some (k, Option.none) := by
          obtain ⟨e, he, hfail⟩ := h
          rcases List.mem_cons.mp he with heq | hmem
          · subst heq
            rcases hfail with h1 | ⟨k1, h1⟩
            · cases h1
            · cases h1
          · exact ⟨e, hmem, hfail⟩
        cases v <;> simp [objectLoop, hrest hin]

/-- C7, the claim at the plain object with the two own properties `a\0b = 1` and
`a\0c = 2` (names with a NUL character): the Dict holds the single entry `a`, and neither
own property under its name. -/
theorem V8ToMValue_generic_object_nul_names :
    (V8ToMValue sampleEnv (V8Value.object plainTraits true
      (ownEntries [("a\x00b", V8Value.number (JSNumber.ofInt 1)),
        ("a\x00c", V8Value.number (JSNumber.ofInt 2))])) true).1
      = MValue.dict [("a", MValue.int 2)] ∧
    dictGet [("a", MValue.int 2)] "a\x00b" = Option.none ∧
    dictGet [("a", MValue.int 2)] "a\x00c" = Option.none := by
  refine ⟨?_, ?_, ?_⟩
  · rfl
  · simp [dictGet]
  · simp [dictGet]

/-- C7, amended. Generic object conversion: for an object that is none of the recognised
kinds, `V8ToMValue` returns `Nil` when the property-name list cannot be fetched and when some
key or some value cannot be fetched; when everything can be fetched it returns a Dict that
holds, under each own property name cut at its first NUL character, the conversion with the
caller's `allowFunction` of the last own property of that cut name whose value is not
`undefined`, and nothing else. -/
theorem V8ToMValue_generic_object (env : Env) (traits : ObjectTraits) (namesOk : Bool)
    (own : List (Option (String × Option V8Value))) (allowFunction : Bool)
    (h3 : traits.isVector3 = false) (h2 : traits.isVector2 = false)
    (hr : traits.isRGBA = false) (hb : traits.isBaseObject = false) :
    (namesOk = false →
      (V8ToMValue env (V8Value.object traits namesOk own) allowFunction).1 = MValue.nil) ∧
    ((∃ e ∈ own, e = Option.none ∨ ∃ k, e = some (k, Option.none)) →
      (V8ToMValue env (V8Value.object traits namesOk own) allowFunction).1 = MValue.nil) ∧
    (∀ props, namesOk = true → own = ownEntries props →
      ∃ d, (V8ToMValue env (V8Value.object traits namesOk own) allowFunction).1 = MValue.dict d ∧
        ∀ key, dictGet d key =
          (lastDefined props key).map (fun v => (V8ToMValue env v allowFunction).1)) := by
  refine ⟨?_, ?_, ?_⟩
  · intro hn
    simp [V8ToMValue, h3, h2, hr, hb, hn]
  · intro hfail
    cases namesOk with
    | false => simp [V8ToMValue, h3, h2, hr, hb]
    | true =>
      simp only [V8ToMValue, h3, h2, hr, hb, Bool.false_eq_true, if_false, Bool.not_true]
      exact objectLoop_abort env allowFunction own [] hfail
  · intro props hn hown
    subst hn
    subst hown
    obtain ⟨d, hd, hget⟩ := objectLoop_fetched env allowFunction props []
    refine ⟨d, ?_, ?_⟩
    · simp only [V8ToMValue, h3, h2, hr, hb, Bool.false_eq_true, if_false, Bool.not_true]
      exact hd
    · intro key
      rw [hget key]
      cases lastDefined props key <;> simp [dictGet]

/-- C7 at the plain object `{ a: 1, b: undefined }`: the Dict holds `a` and leaves `b` out. -/
theorem V8ToMValue_generic_object_witness :
    ∃ d, (V8ToMValue sampleEnv (V8Value.object plainTraits true
        (ownEntries [("a", V8Value.number (JSNumber.ofInt 1)), ("b", V8Value.undefined)])) true).1
        = MValue.dict d ∧
      ∀ key, dictGet d key =
        (lastDefined [("a", V8Value.number (JSNumber.ofInt 1)), ("b", V8Value.undefined)] key).map
          (fun v => (V8ToMValue sampleEnv v true).1) :=
  (V8ToMValue_generic_object sampleEnv plainTraits true
    (ownEntries [("a", V8Value.number (JSNumber.ofInt 1)), ("b", V8Value.undefined)]) true
    rfl rfl rfl rfl).2.2 _ rfl rfl

/-! ## Frames -/

/-- C10. Frame disambiguation: when the 5 bytes that follow the serializer header are not
`J S V a l` (fewer than 5 bytes following included), `RawBytesToV8` returns no value and
makes no `ReadValue` call on its deserializer. -/
theorem RawBytesToV8_foreign_frame (env : Env) (rawBytes : Bytes)
    (h : ∀ flag rest, env.readHeader rawBytes = some (flag, rest) →
      rest.take 5 ≠ ['J', 'S', 'V', 'a', 'l'].map Char.toNat) :
    (RawBytesToV8 env rawBytes).1 = Option.none ∧
      DeserializerCall.readValue ∉ (RawBytesToV8 env rawBytes).2 := by
  unfold RawBytesToV8
  by_cases hlen : rawBytes.length < magicBytes.length
  · simp [hlen]
  · rw [if_neg hlen]
    cases hh : env.readHeader rawBytes with
    | none => simp
    | some r =>
      obtain ⟨flag, rest⟩ := r
      cases flag with
      | false => simp
      | true =>
        have hne := h true rest hh
        simp only []
        unfold readRawBytes
        by_cases hshort : rest.length < magicBytes.length
        · simp [hshort]
        · have hm : List.take magicBytes.length rest ≠ magicBytes := by
            simpa [magicBytes] using hne
          simp [hshort, hm]

/-- C10 at a buffer with a valid header followed by `1 2 3 4 5`. -/
theorem RawBytesToV8_foreign_frame_witness :
    (RawBytesToV8 sampleEnv [255, 15, 1, 2, 3, 4, 5, 9]).1 = Option.none ∧
      DeserializerCall.readValue ∉ (RawBytesToV8 sampleEnv [255, 15, 1, 2, 3, 4, 5, 9]).2 :=
  RawBytesToV8_foreign_frame sampleEnv [255, 15, 1, 2, 3, 4, 5, 9] (by
    intro flag rest hh
    have hrest : rest = [1, 2, 3, 4, 5, 9] := by
      have h2 : some (true, [1, 2, 3, 4, 5, 9]) = some (flag, rest) := hh
      injection h2 with h3
      injection h3 with _ h4
      exact h4.symm
    subst hrest
    decide)

/-! ## Round trip -/

theorem listLoop_eq (env : Env) (items : List MValue) :
    listLoop env items = items.map (fun v => some (MValueToV8 env v)) := by
  induction items with
  | nil => simp [listLoop]
  | cons v rest ih => simp [listLoop, ih]

theorem arrayLoop_fetched (env : Env) (allowFunction : Bool) (vs : List V8Value) :
    (arrayLoop env (vs.map some) allowFunction 0 (CreateMValueList env (vs.map some).length)).1
      = vs.map (fun v => (V8ToMValue env v allowFunction).1) := by
  apply List.ext_getElem?
  intro j
  rw [arrayLoop_getElem?]
  simp only [Nat.not_lt_zero, if_false, Nat.sub_zero, CreateMValueList, List.length_replicate,
    List.length_map, List.getElem?_replicate, List.getElem?_map]
  cases h : vs[j]? with
  | none =>
    have hj : ¬ j < vs.length := by
      intro hlt
      rw [List.getElem?_eq_getElem hlt] at h
      cases h
    simp [hj]
  | some v =>
    have hj : j < vs.length := by
      by_contra hge
      rw [List.getElem?_eq_none (by omega)] at h
      cases h
    simp [hj]

theorem objectSet_fresh (props : List (String × V8Value)) (k : String) (v : V8Value)
    (hk : k ≠ "__proto__") (h : k ∉ props.map Prod.fst) :
    objectSet props k v = props ++ [(k, v)] := by
  induction props with
  | nil => simp [objectSet, hk]
  | cons p rest ih =>
    obtain ⟨k0, w⟩ := p
    have h0 : k0 ≠ k := by
      intro he
      apply h
      simp [he]
    have h1 : k ∉ rest.map Prod.fst := by
      intro hm
      apply h
      simp only [List.map_cons, List.mem_cons]
      exact Or.inr hm
    simp [objectSet, hk, h0, ih h1]

theorem dictSet_fresh (d : List (String × MValue)) (k : String) (v : MValue)
    (h : k ∉ d.map Prod.fst) : dictSet d k v = d ++ [(k, v)] := by
  induction d with
  | nil => simp [dictSet]
  | cons p rest ih =>
    obtain ⟨k0, w⟩ := p
    have h0 : k0 ≠ k := by
      intro he
      apply h
      simp [he]
    have h1 : k ∉ rest.map Prod.fst := by
      intro hm
      apply h
      simp only [List.map_cons, List.mem_cons]
      exact Or.inr hm
    simp [dictSet, h0, ih h1]

theorem dictLoop_fresh (env : Env) :
    ∀ (entries : List (String × MValue)) (props : List (String × V8Value)),
      (props.map Prod.fst ++ entries.map Prod.fst).Nodup →
      (∀ p ∈ entries, p.1 ≠ "__proto__") →
      dictLoop env entries props = props ++ entries.map (fun p => (p.1, MValueToV8 env p.2)) := by
  intro entries
  induction entries with
  | nil => intro props _ _; simp [dictLoop]
  | cons e rest ih =>
    intro props hnd hproto
    obtain ⟨k, v⟩ := e
    have hk : k ∉ props.map Prod.fst := by
      intro hm
      have := List.nodup_append.mp hnd
      exact this.2.2 hm (by simp)
    have hp : k ≠ "__proto__" := hproto (k, v) (by simp)
    simp only [dictLoop]
    rw [objectSet_fresh props k _ hp hk, ih]
    · simp
    · simpa [List.append_assoc] using hnd
    · intro q hq
      exact hproto q (List.mem_cons_of_mem _ hq)

theorem objectLoop_store (env : Env) (allowFunction : Bool) :
    ∀ (e : List (String × V8Value)) (dict : List (String × MValue)),
      (dict.map Prod.fst ++ e.map Prod.fst).Nodup →
      (∀ p ∈ e, cString p.1 = p.1 ∧ p.2 ≠ V8Value.undefined) →
      (objectLoop env (ownEntries e) allowFunction dict).1
        = MValue.dict (dict ++ e.map (fun p => (p.1, (V8ToMValue env p.2 allowFunction).1))) := by
  intro e
  induction e with
  | nil => intro dict _ _; simp [ownEntries, objectLoop]
  | cons p rest ih =>
    intro dict hnd hall
    obtain ⟨k, v⟩ := p
    have hp := hall (k, v) (by simp)
    have hv : v ≠ V8Value.undefined := hp.2
    have hk : cString k = k := hp.1
    have hfresh : k ∉ dict.map Prod.fst := by
      intro hm
      have := List.nodup_append.mp hnd
      exact this.2.2 hm (by simp)
    have hstep : (objectLoop env (ownEntries ((k, v) :: rest)) allowFunction dict).1 =
        (objectLoop env (ownEntries rest) allowFunction
          (dictSet dict (cString k) (V8ToMValue env v allowFunction).1)).1 := by
      cases v <;> first | exact absurd rfl hv | simp [ownEntries, objectLoop]
    rw [hstep, hk, dictSet_fresh dict k _ hfresh, ih]
    · simp
    · simpa [List.append_assoc] using hnd
    · intro q hq
      exact hall q (List.mem_cons_of_mem _ hq)

theorem TransferableEntries_mem (env : Env) :
    ∀ (entries : List (String × MValue)), TransferableEntries env entries →
      ∀ p ∈ entries,
        cString p.1 = p.1 ∧ p.1 ≠ "__proto__" ∧ p.2 ≠ MValue.none ∧ Transferable env p.2 := by
  intro entries
  induction entries with
  | nil => intro _ p hp; cases hp
  | cons e rest ih =>
    intro h p hp
    obtain ⟨k, v⟩ := e
    simp only [TransferableEntries] at h
    rcases List.mem_cons.mp hp with heq | hmem
    · subst heq
      exact ⟨h.1, h.2.1, h.2.2.1, h.2.2.2.1⟩
    · exact ih h.2.2.2.2 p hmem

theorem MValueToV8_ne_undefined (env : Env) (v : MValue) (h : Transferable env v)
    (hv : v ≠ MValue.none) : MValueToV8 env v ≠ V8Value.undefined := by
  cases v with
  | none => exact absurd rfl hv
  | int n =>
    simp only [MValueToV8]
    split <;> simp
  | uint n =>
    simp only [MValueToV8]
    split <;> simp
  | baseObject ref =>
    obtain ⟨traits, namesOk, own, heq, _⟩ := h
    simp [MValueToV8, heq]
  | function fn => exact absurd h (by simp [Transferable])
  | byteArray data =>
    simp only [Transferable] at h
    simp [MValueToV8, h.1]
  | _ => simp [MValueToV8, CreateVector3, CreateVector2, CreateRGBA]

theorem roundTrip_number (env : Env) (x : JSNumber) (allowFunction : Bool) :
    numberOf (V8ToMValue env (V8Value.number x) allowFunction).1 = some x := by
  cases x with
  | ofInt n =>
    by_cases h1 : -2147483648 ≤ n ∧ n ≤ 2147483647
    · simp [V8ToMValue, IsInt32, Int32Value, h1, numberOf]
    · by_cases h2 : 0 ≤ n ∧ n ≤ 4294967295
      · have h3 : ((n.toNat : Nat) : Int) = n := Int.toNat_of_nonneg h2.1
        simp [V8ToMValue, IsInt32, IsUint32, Uint32Value, h1, h2, numberOf, h3]
      · simp [V8ToMValue, IsInt32, IsUint32, h1, h2, numberOf]
  | negZero => simp [V8ToMValue, IsInt32, IsUint32, numberOf]
  | nonInt bits => simp [V8ToMValue, IsInt32, IsUint32, numberOf]

theorem roundTrip_bigint (env : Env) (b : Int) (allowFunction : Bool)
    (h1 : -9223372036854775808 ≤ b) (h2 : b ≤ 18446744073709551615) :
    numberOf (V8ToMValue env (V8Value.bigint b) allowFunction).1 = some (JSNumber.ofInt b) := by
  by_cases h0 : 0 ≤ b
  · rw [(V8ToMValue_bigint_in_range env b allowFunction).1 h0 (by omega)]
    simp [numberOf, Int.toNat_of_nonneg h0]
  · rw [(V8ToMValue_bigint_in_range env b allowFunction).2 h1 (by omega)]
    simp [numberOf]

theorem roundTrip_int (env : Env) (n : Int) (allowFunction : Bool)
    (h1 : -9223372036854775808 ≤ n) (h2 : n ≤ 9223372036854775807) :
    numberOf (V8ToMValue env (MValueToV8 env (MValue.int n)) allowFunction).1
      = some (JSNumber.ofInt n) := by
  by_cases hs : -9007199254740991 ≤ n ∧ n ≤ 9007199254740991
  · have hv : MValueToV8 env (MValue.int n) = V8Value.number (JSNumber.ofInt n) := by
      simp only [MValueToV8, JS_MIN_SAFE_INTEGER, JS_MAX_SAFE_INTEGER]
      rw [if_pos (by omega), integerToDouble_of_safe n hs.1 hs.2, NumberNew_ofInt]
    rw [hv]
    exact roundTrip_number env _ allowFunction
  · have hv : MValueToV8 env (MValue.int n) = V8Value.bigint n := by
      simp only [MValueToV8, JS_MIN_SAFE_INTEGER, JS_MAX_SAFE_INTEGER]
      rw [if_neg (by omega)]
    rw [hv]
    exact roundTrip_bigint env n allowFunction h1 (by omega)

theorem roundTrip_uint (env : Env) (n : Nat) (allowFunction : Bool)
    (h : n ≤ 18446744073709551615) :
    numberOf (V8ToMValue env (MValueToV8 env (MValue.uint n)) allowFunction).1
      = some (JSNumber.ofInt n) := by
  by_cases hs : n ≤ 9007199254740991
  · have hv : MValueToV8 env (MValue.uint n) = V8Value.number (JSNumber.ofInt n) := by
      simp only [MValueToV8, JS_MAX_SAFE_INTEGER]
      rw [if_pos (by omega), integerToDouble_of_safe n (by omega) (by omega), NumberNew_ofInt]
    rw [hv]
    exact roundTrip_number env _ allowFunction
  · have hv : MValueToV8 env (MValue.uint n) = V8Value.bigint n := by
      simp only [MValueToV8, JS_MAX_SAFE_INTEGER]
      rw [if_neg (by omega)]
    rw [hv]
    exact roundTrip_bigint env n allowFunction (by omega) (by omega)

theorem doubleToUint8_byte (env : Env) (r : Nat) (h : r ≤ 255) :
    doubleToUint8 env (JSNumber.ofInt r) = r := by
  have h1 : (0 : Int) ≤ (r : Int) ∧ (r : Int) ≤ 255 := by omega
  simp [doubleToUint8, h1]

theorem roundTrip_leaf (env : Env) (allowFunction : Bool) (v : MValue) (h : Transferable env v)
    (hl : ∀ items, v ≠ MValue.list items) (hd : ∀ entries, v ≠ MValue.dict entries) :
    SameValue v (V8ToMValue env (MValueToV8 env v) allowFunction).1 := by
  cases v with
  | none => simpa [MValueToV8, V8ToMValue] using SameValue.same MValue.none
  | nil => simpa [MValueToV8, V8ToMValue] using SameValue.same MValue.nil
  | bool b => simpa [MValueToV8, V8ToMValue] using SameValue.same (MValue.bool b)
  | int n =>
    simp only [Transferable] at h
    exact SameValue.number _ _ _ rfl (roundTrip_int env n allowFunction h.1 h.2)
  | uint n =>
    simp only [Transferable] at h
    exact SameValue.number _ _ _ rfl (roundTrip_uint env n allowFunction h)
  | double x =>
    simp only [Transferable] at h
    have hv : MValueToV8 env (MValue.double x) = V8Value.number x := by
      simp only [MValueToV8, h]
    rw [hv]
    exact SameValue.number _ _ _ rfl (roundTrip_number env x allowFunction)
  | string s =>
    simp only [Transferable] at h
    simpa [MValueToV8, V8ToMValue, h] using SameValue.same (MValue.string s)
  | list items => exact absurd rfl (hl items)
  | dict entries => exact absurd rfl (hd entries)
  | baseObject ref =>
    obtain ⟨traits, namesOk, own, heq, h3, h2, hr, hb, he⟩ := h
    simpa [MValueToV8, V8ToMValue, heq, h3, h2, hr, hb, he] using
      SameValue.same (MValue.baseObject ref)
  | function fn => exact absurd h (by simp [Transferable])
  | vector3 x y z =>
    simp only [Transferable] at h
    simpa [MValueToV8, CreateVector3, V8ToMValue, plainTraits, ownEntries, objectGet, numberValue,
      h.1, h.2.1, h.2.2] using SameValue.same (MValue.vector3 x y z)
  | vector2 x y =>
    simp only [Transferable] at h
    simpa [MValueToV8, CreateVector2, V8ToMValue, plainTraits, ownEntries, objectGet, numberValue,
      h.1, h.2] using SameValue.same (MValue.vector2 x y)
  | rgba r g b a =>
    simp only [Transferable] at h
    simpa [MValueToV8, CreateRGBA, V8ToMValue, plainTraits, ownEntries, objectGet, numberValue,
      doubleToUint8_byte env r h.1, doubleToUint8_byte env g h.2.1,
      doubleToUint8_byte env b h.2.2.1, doubleToUint8_byte env a h.2.2.2] using
      SameValue.same (MValue.rgba r g b a)
  | byteArray data =>
    simp only [Transferable] at h
    simpa [MValueToV8, V8ToMValue, h.1, h.2] using SameValue.same (MValue.byteArray data)

theorem roundTrip_dict_value (env : Env) (allowFunction : Bool)
    (henum : ∀ props, (env.enumOrder props).Perm props) (entries : List (String × MValue))
    (h : TransferableEntries env entries) (hnd : (entries.map Prod.fst).Nodup) :
    ∃ result, (V8ToMValue env (MValueToV8 env (MValue.dict entries)) allowFunction).1
        = MValue.dict result ∧
      (entries.map (fun p =>
        (p.1, (V8ToMValue env (MValueToV8 env p.2) allowFunction).1))).Perm result := by
  have hloop : dictLoop env entries [] = entries.map (fun p => (p.1, MValueToV8 env p.2)) := by
    rw [dictLoop_fresh env entries [] (by simpa using hnd)
      (fun p hp => (TransferableEntries_mem env entries h p hp).2.1)]
    simp
  have hperm := henum (entries.map (fun p => (p.1, MValueToV8 env p.2)))
  have hkeys : ((env.enumOrder (entries.map (fun p => (p.1, MValueToV8 env p.2)))).map
      Prod.fst).Nodup := by
    have hp := hperm.map Prod.fst
    rw [hp.nodup_iff]
    simpa [List.map_map, Function.comp_def] using hnd
  have hall : ∀ p ∈ env.enumOrder (entries.map (fun p => (p.1, MValueToV8 env p.2))),
      cString p.1 = p.1 ∧ p.2 ≠ V8Value.undefined := by
    intro p hp
    have hp2 := hperm.mem_iff.mp hp
    obtain ⟨q, hq, rfl⟩ := List.mem_map.mp hp2
    have ht := TransferableEntries_mem env entries h q hq
    exact ⟨ht.1, MValueToV8_ne_undefined env q.2 ht.2.2.2 ht.2.2.1⟩
  refine ⟨(env.enumOrder (entries.map (fun p => (p.1, MValueToV8 env p.2)))).map
    (fun p => (p.1, (V8ToMValue env p.2 allowFunction).1)), ?_, ?_⟩
  · simp only [MValueToV8, V8ToMValue, plainTraits, hloop, Bool.false_eq_true, if_false,
      Bool.not_true]
    rw [objectLoop_store env allowFunction _ [] (by simpa using hkeys) hall]
    simp
  · have hp := (hperm.map (fun p => (p.1, (V8ToMValue env p.2 allowFunction).1))).symm
    simpa [List.map_map, Function.comp_def] using hp

mutual
theorem roundTrip_value (env : Env) (allowFunction : Bool)
    (henum : ∀ props, (env.enumOrder props).Perm props) :
    ∀ v, Transferable env v →
      SameValue v (V8ToMValue env (MValueToV8 env v) allowFunction).1
  | .list items, h => by
    have hi := roundTrip_items env allowFunction henum items h
    have hv : (V8ToMValue env (MValueToV8 env (MValue.list items)) allowFunction).1
        = MValue.list (items.map (fun v =>
            (V8ToMValue env (MValueToV8 env v) allowFunction).1)) := by
      have := arrayLoop_fetched env allowFunction (items.map (MValueToV8 env))
      simp only [List.map_map] at this
      simp only [MValueToV8, V8ToMValue, listLoop_eq]
      rw [show (fun v => some (MValueToV8 env v)) = some ∘ MValueToV8 env from rfl, this]
      rfl
    rw [hv]
    exact SameValue.list _ _ hi
  | .dict entries, h => by
    have he := roundTrip_entries env allowFunction henum entries h.1
    obtain ⟨result, hr, hp⟩ := roundTrip_dict_value env allowFunction henum entries h.1 h.2
    rw [hr]
    exact SameValue.dict _ _ _ he hp
  | .none, h => roundTrip_leaf env allowFunction _ h (by intro _ hc; cases hc) (by intro _ hc; cases hc)
  | .nil, h => roundTrip_leaf env allowFunction _ h (by intro _ hc; cases hc) (by intro _ hc; cases hc)
  | .bool _, h => roundTrip_leaf env allowFunction _ h (by intro _ hc; cases hc) (by intro _ hc; cases hc)
  | .int _, h => roundTrip_leaf env allowFunction _ h (by intro _ hc; cases hc) (by intro _ hc; cases hc)
  | .uint _, h => roundTrip_leaf env allowFunction _ h (by intro _ hc; cases hc) (by intro _ hc; cases hc)
  | .double _, h => roundTrip_leaf env allowFunction _ h (by intro _ hc; cases hc) (by intro _ hc; cases hc)
  | .string _, h => roundTrip_leaf env allowFunction _ h (by intro _ hc; cases hc) (by intro _ hc; cases hc)
  | .baseObject _, h => roundTrip_leaf env allowFunction _ h (by intro _ hc; cases hc) (by intro _ hc; cases hc)
  | .function _, h => roundTrip_leaf env allowFunction _ h (by intro _ hc; cases hc) (by intro _ hc; cases hc)
  | .vector3 _ _ _, h => roundTrip_leaf env allowFunction _ h (by intro _ hc; cases hc) (by intro _ hc; cases hc)
  | .vector2 _ _, h => roundTrip_leaf env allowFunction _ h (by intro _ hc; cases hc) (by intro _ hc; cases hc)
  | .rgba _ _ _ _, h => roundTrip_leaf env allowFunction _ h (by intro _ hc; cases hc) (by intro _ hc; cases hc)
  | .byteArray _, h => roundTrip_leaf env allowFunction _ h (by intro _ hc; cases hc) (by intro _ hc; cases hc)
theorem roundTrip_items (env : Env) (allowFunction : Bool)
    (henum : ∀ props, (env.enumOrder props).Perm props) :
    ∀ items, TransferableItems env items →
      SameItems items (items.map (fun v =>
        (V8ToMValue env (MValueToV8 env v) allowFunction).1))
  | [], _ => SameItems.nil
  | v :: rest, h =>
    SameItems.cons _ _ _ _ (roundTrip_value env allowFunction henum v h.1)
      (roundTrip_items env allowFunction henum rest h.2)
theorem roundTrip_entries (env : Env) (allowFunction : Bool)
    (henum : ∀ props, (env.enumOrder props).Perm props) :
    ∀ entries, TransferableEntries env entries →
      SameEntries entries (entries.map (fun p =>
        (p.1, (V8ToMValue env (MValueToV8 env p.2) allowFunction).1)))
  | [], _ => SameEntries.nil
  | (k, v) :: rest, h =>
    SameEntries.cons k _ _ _ _ (roundTrip_value env allowFunction henum v h.2.2.2.1)
      (roundTrip_entries env allowFunction henum rest h.2.2.2.2)
end

/-- An `Int` above the safe range comes back as `UInt`: the big integer is not negative. -/
theorem roundTrip_int_above_safe_range :
    (V8ToMValue sampleEnv (MValueToV8 sampleEnv (MValue.int 9007199254740992)) true).1
      = MValue.uint 9007199254740992 := by
  simp [MValueToV8, V8ToMValue, JS_MIN_SAFE_INTEGER, JS_MAX_SAFE_INTEGER, Uint64Value]

/-- A Dict entry holding `None` is lost: it becomes an `undefined` property, which the generic
object branch skips. -/
theorem roundTrip_dict_drops_none :
    (V8ToMValue sampleEnv (MValueToV8 sampleEnv (MValue.dict [("a", MValue.none)])) true).1
      = MValue.dict [] := by
  rfl

/-- A Dict entry under the key `__proto__` is lost: `Set` reaches the setter of
`Object.prototype` and the object gets no own property. -/
theorem roundTrip_dict_drops_proto :
    (V8ToMValue sampleEnv (MValueToV8 sampleEnv (MValue.dict [("__proto__", MValue.int 1)])) true).1
      = MValue.dict [] := by
  rfl

/-- A `Double` holding a NaN with a payload comes back as the canonical NaN. -/
theorem roundTrip_double_nan_payload :
    (V8ToMValue sampleEnv
      (MValueToV8 sampleEnv (MValue.double (JSNumber.nonInt 9221120237041090561))) true).1
      = MValue.double (JSNumber.nonInt 9221120237041090560) := by
  rfl

/-- C11. Frame recognition round trip: when `V8ToRawBytes` succeeds, the bytes it returns are
the serializer header, then the 5 bytes `J S V a l`, then the payload `WriteValue` appended;
and with a deserializer that accepts the header the serializer writes, `RawBytesToV8` on
those bytes passes its length, header and magic checks and hands exactly the payload to
`ReadValue`. -/
theorem V8ToRawBytes_frame (env : Env) (codec : Codec) (val : V8Value) (bytes : Bytes)
    (hheader : ∀ rest, env.readHeader (codec.writeHeader ++ rest) = some (true, rest))
    (h : (V8ToRawBytes codec val).1 = some bytes) :
    ∃ payload, codec.writeValue val = (some true, payload) ∧
      bytes = codec.writeHeader ++ ['J', 'S', 'V', 'a', 'l'].map Char.toNat ++ payload ∧
      RawBytesToV8 env bytes = (env.readValue payload,
        [DeserializerCall.construct, DeserializerCall.readHeader,
          DeserializerCall.readRawBytes 5, DeserializerCall.readValue]) := by
  unfold V8ToRawBytes at h
  by_cases hinv : GetValueType val = RawValueType.INVALID
  · simp [hinv] at h
  · rw [if_neg hinv] at h
    rcases hw : codec.writeValue val with ⟨r, payload⟩
    rw [hw] at h
    cases r with
    | none => simp at h
    | some b =>
      cases b with
      | false => simp at h
      | true =>
        simp only [Option.some.injEq] at h
        refine ⟨payload, rfl, ?_, ?_⟩
        · rw [← h]; rfl
        · subst h
          have hlen : ¬ (codec.writeHeader ++ magicBytes ++ payload).length < magicBytes.length := by
            simp [magicBytes]
            omega
          unfold RawBytesToV8
          rw [if_neg hlen, List.append_assoc, hheader]
          have hshort : ¬ (payload.length + 1 + 1 + 1 + 1 + 1 < 5) := by omega
          simp [readRawBytes, magicBytes, hshort]

/-- C11 at the value `null`, which the sample serializer writes as the byte 48. -/
theorem V8ToRawBytes_frame_witness :
    ∃ payload, sampleCodec.writeValue V8Value.null = (some true, payload) ∧
      [255, 15, 74, 83, 86, 97, 108, 48]
        = sampleCodec.writeHeader ++ ['J', 'S', 'V', 'a', 'l'].map Char.toNat ++ payload ∧
      RawBytesToV8 sampleEnv [255, 15, 74, 83, 86, 97, 108, 48] = (sampleEnv.readValue payload,
        [DeserializerCall.construct, DeserializerCall.readHeader,
          DeserializerCall.readRawBytes 5, DeserializerCall.readValue]) :=
  V8ToRawBytes_frame sampleEnv sampleCodec V8Value.null [255, 15, 74, 83, 86, 97, 108, 48]
    (fun _ => rfl) rfl

/-! ## The raw value codec -/

theorem fromLe32_le32 (n : Nat) (h : n < 4294967296) : fromLe32 (le32 n) = n := by
  simp only [le32, fromLe32]
  omega

theorem readRawBytes_append (n : Nat) (bs rest : Bytes) (h : bs.length = n) :
    readRawBytes n (bs ++ rest) = some (bs, rest) := by
  have h1 : ¬ (bs ++ rest).length < n := by
    simp only [List.length_append]
    omega
  unfold readRawBytes
  rw [if_neg h1]
  subst h
  simp

theorem readRawBytes_one_cons (b : Nat) (rest : Bytes) :
    readRawBytes 1 (b :: rest) = some ([b], rest) := by
  simp [readRawBytes]

theorem readRawBytes_short (n : Nat) (data : Bytes) (h : data.length < n) :
    readRawBytes n data = Option.none := by
  simp [readRawBytes, h]

theorem ReadRawValue_vector3 (env : Env) (codec : Codec) (x y z rest : Bytes)
    (hx : x.length = 4) (hy : y.length = 4) (hz : z.length = 4) :
    ReadRawValue env codec ([3] ++ (x ++ (y ++ (z ++ rest))))
      = (some (CreateVector3 env (fromLe32 x) (fromLe32 y) (fromLe32 z)), rest, []) := by
  simp [ReadRawValue, readRawBytes_one_cons, firstByte, RawValueType.toByte,
    readRawBytes_append 4 x _ hx, readRawBytes_append 4 y _ hy, readRawBytes_append 4 z _ hz]

theorem ReadRawValue_vector2 (env : Env) (codec : Codec) (x y rest : Bytes)
    (hx : x.length = 4) (hy : y.length = 4) :
    ReadRawValue env codec ([4] ++ (x ++ (y ++ rest)))
      = (some (CreateVector2 env (fromLe32 x) (fromLe32 y)), rest, []) := by
  simp [ReadRawValue, readRawBytes_one_cons, firstByte, RawValueType.toByte,
    readRawBytes_append 4 x _ hx, readRawBytes_append 4 y _ hy]

theorem ReadRawValue_rgba (env : Env) (codec : Codec) (r g b a : Nat) (rest : Bytes) :
    ReadRawValue env codec ([5] ++ ([r] ++ ([g] ++ ([b] ++ ([a] ++ rest)))))
      = (some (CreateRGBA r g b a), rest, []) := by
  simp [ReadRawValue, readRawBytes_one_cons, firstByte, RawValueType.toByte,
    readRawBytes_one_cons, readRawBytes_one_cons,
    readRawBytes_one_cons, readRawBytes_one_cons]

theorem ReadRawValue_baseObject (env : Env) (codec : Codec) (id : Bytes) (type flag : Nat)
    (rest : Bytes) (hid : id.length = 4) :
    ReadRawValue env codec ([2] ++ (id ++ ([type] ++ ([flag] ++ rest))))
      = (Option.map codec.getOrCreateEntity
          (if codec.clientApi then
            (if flag ≠ 0 then codec.getBaseObjectByRemoteID type (fromLe32 id)
              else codec.getBaseObjectByID type (fromLe32 id))
          else codec.getBaseObjectByID
            (if type = codec.typeLocalPlayer then codec.typePlayer else type) (fromLe32 id)),
        rest, []) := by
  simp only [List.singleton_append, ReadRawValue, readRawBytes_one_cons, firstByte,
    RawValueType.toByte, readRawBytes_append 4 id _ hid, if_true]
  split <;> simp_all

/-- C12. Geometry fidelity: for a Vector3 of the floats `x, y, z`, `ReadRawValue` on the
bytes `WriteRawValue` wrote (whatever follows them) makes the Vector3 of exactly the bit
patterns `x, y, z` and leaves what follows; likewise for the components of a Vector2 and the
channels of an RGBA. -/
theorem raw_geometry_fidelity (env : Env) (codec : Codec) (val : V8Value) (rest : Bytes) :
    (∀ x y z, x < 4294967296 → y < 4294967296 → z < 4294967296 →
      codec.safeToVector3 val = some (x, y, z) →
      (WriteRawValue codec RawValueType.VECTOR3 val).1 = true ∧
      ReadRawValue env codec ((WriteRawValue codec RawValueType.VECTOR3 val).2 ++ rest)
        = (some (CreateVector3 env x y z), rest, [])) ∧
    (∀ x y, x < 4294967296 → y < 4294967296 →
      codec.safeToVector2 val = some (x, y) →
      (WriteRawValue codec RawValueType.VECTOR2 val).1 = true ∧
      ReadRawValue env codec ((WriteRawValue codec RawValueType.VECTOR2 val).2 ++ rest)
        = (some (CreateVector2 env x y), rest, [])) ∧
    (∀ r g b a, r < 256 → g < 256 → b < 256 → a < 256 →
      codec.safeToRGBA val = some (r, g, b, a) →
      (WriteRawValue codec RawValueType.RGBA val).1 = true ∧
      ReadRawValue env codec ((WriteRawValue codec RawValueType.RGBA val).2 ++ rest)
        = (some (CreateRGBA r g b a), rest, [])) := by
  refine ⟨?_, ?_, ?_⟩
  · intro x y z hx hy hz hs
    have hw : WriteRawValue codec RawValueType.VECTOR3 val
        = (true, [3] ++ le32 x ++ le32 y ++ le32 z) := by
      simp [WriteRawValue, hs, RawValueType.toByte]
    rw [hw]
    refine ⟨rfl, ?_⟩
    have hb : ([3] ++ le32 x ++ le32 y ++ le32 z) ++ rest
        = [3] ++ (le32 x ++ (le32 y ++ (le32 z ++ rest))) := by
      simp only [List.append_assoc]
    simp only []
    rw [hb, ReadRawValue_vector3 env codec (le32 x) (le32 y) (le32 z) rest rfl rfl rfl,
      fromLe32_le32 x hx,
      fromLe32_le32 y hy, fromLe32_le32 z hz]
  · intro x y hx hy hs
    have hw : WriteRawValue codec RawValueType.VECTOR2 val = (true, [4] ++ le32 x ++ le32 y) := by
      simp [WriteRawValue, hs, RawValueType.toByte]
    rw [hw]
    refine ⟨rfl, ?_⟩
    have hb : ([4] ++ le32 x ++ le32 y) ++ rest = [4] ++ (le32 x ++ (le32 y ++ rest)) := by
      simp only [List.append_assoc]
    simp only []
    rw [hb, ReadRawValue_vector2 env codec (le32 x) (le32 y) rest rfl rfl, fromLe32_le32 x hx,
      fromLe32_le32 y hy]
  · intro r g b a hr hg hb ha hs
    have hw : WriteRawValue codec RawValueType.RGBA val
        = (true, [5] ++ [r % 256] ++ [g % 256] ++ [b % 256] ++ [a % 256]) := by
      simp [WriteRawValue, hs, RawValueType.toByte]
    rw [hw]
    refine ⟨rfl, ?_⟩
    have hbytes : ([5] ++ [r % 256] ++ [g % 256] ++ [b % 256] ++ [a % 256]) ++ rest
        = [5] ++ ([r] ++ ([g] ++ ([b] ++ ([a] ++ rest)))) := by
      simp only [List.append_assoc, Nat.mod_eq_of_lt hr, Nat.mod_eq_of_lt hg,
        Nat.mod_eq_of_lt hb, Nat.mod_eq_of_lt ha]
    simp only []
    rw [hbytes, ReadRawValue_rgba]

/-- C12 at the Vector3 `{x: 1.5, y: -2.25, z: 0.0}`, whose single-precision bit patterns are
`0x3FC00000`, `0xC0100000` and `0`. -/
theorem raw_geometry_fidelity_witness :
    (WriteRawValue sampleCodec RawValueType.VECTOR3
      (CreateVector3 sampleEnv 1069547520 3222274048 0)).1 = true ∧
    ReadRawValue sampleEnv sampleCodec
      ((WriteRawValue sampleCodec RawValueType.VECTOR3
        (CreateVector3 sampleEnv 1069547520 3222274048 0)).2 ++ [])
      = (some (CreateVector3 sampleEnv 1069547520 3222274048 0), [], []) :=
  (raw_geometry_fidelity sampleEnv sampleCodec (CreateVector3 sampleEnv 1069547520 3222274048 0)
    []).1 1069547520 3222274048 0 (by decide) (by decide) (by decide) rfl

/-- C13. For a host object that is none of the recognised kinds, `GetValueType` answers
`GENERIC`, `WriteHostObject` reports success having written only the tag byte 1, and
`ReadRawValue` on that byte recognises no kind: it makes no value and logs the tag as
unknown. -/
theorem raw_generic_written_but_not_read (env : Env) (codec : Codec) :
    GetValueType (V8Value.object plainTraits true []) = RawValueType.GENERIC ∧
    WriteRawValue codec RawValueType.GENERIC (V8Value.object plainTraits true []) = (true, [1]) ∧
    WriteHostObject codec (V8Value.object plainTraits true []) = (some true, [1], []) ∧
    ReadRawValue env codec [1]
      = (Option.none, [],
          [Diag.logError ("Reading unknown raw value type: " ++ toString (1 : Nat))]) := by
  refine ⟨rfl, rfl, rfl, ?_⟩
  simp [ReadRawValue, readRawBytes, firstByte, RawValueType.toByte]

theorem GetValueType_baseObject_entity (val : V8Value)
    (h : GetValueType val = RawValueType.BASEOBJECT) :
    ∃ handle, (traitsOf val).entity = some (some handle) := by
  unfold GetValueType at h
  split at h
  · cases h
  · split at h
    · split at h
      · cases h
      · cases h
      · rename_i handle hent
        exact ⟨handle, hent⟩
    · split at h
      · cases h
      · split at h
        · cases h
        · split at h <;> cases h

/-- C14. Payload layout: when `WriteRawValue` succeeds on an object with the kind
`GetValueType` gives it, the bytes appended are the tag byte followed, with no length
prefix, by: for a BaseObjectRef the 4-byte id, the type code and the locality flag (6
bytes); for a Vector3 the floats x, y, z (12 bytes); for a Vector2 the floats x, y (8 bytes);
for an RGBA the channels r, g, b, a (4 bytes). -/
theorem WriteRawValue_layout (codec : Codec) (val : V8Value)
    (hw : (WriteRawValue codec (GetValueType val) val).1 = true) :
    (GetValueType val = RawValueType.BASEOBJECT →
      ∃ handle, (traitsOf val).entity = some (some handle) ∧
        (WriteRawValue codec (GetValueType val) val).2
          = [2] ++ le32 (if codec.clientApi then
                (if handle.isRemote then handle.remoteId else handle.id) else handle.id)
              ++ [handle.type % 256]
              ++ [if (if codec.clientApi then handle.isRemote else true) then 1 else 0] ∧
        (WriteRawValue codec (GetValueType val) val).2.length = 1 + 6) ∧
    (GetValueType val = RawValueType.VECTOR3 →
      ∃ x y z, codec.safeToVector3 val = some (x, y, z) ∧
        (WriteRawValue codec (GetValueType val) val).2 = [3] ++ le32 x ++ le32 y ++ le32 z ∧
        (WriteRawValue codec (GetValueType val) val).2.length = 1 + 12) ∧
    (GetValueType val = RawValueType.VECTOR2 →
      ∃ x y, codec.safeToVector2 val = some (x, y) ∧
        (WriteRawValue codec (GetValueType val) val).2 = [4] ++ le32 x ++ le32 y ∧
        (WriteRawValue codec (GetValueType val) val).2.length = 1 + 8) ∧
    (GetValueType val = RawValueType.RGBA →
      ∃ r g b a, codec.safeToRGBA val = some (r, g, b, a) ∧
        (WriteRawValue codec (GetValueType val) val).2
          = [5] ++ [r % 256] ++ [g % 256] ++ [b % 256] ++ [a % 256] ∧
        (WriteRawValue codec (GetValueType val) val).2.length = 1 + 4) := by
  refine ⟨?_, ?_, ?_, ?_⟩
  · intro ht
    obtain ⟨handle, hent⟩ := GetValueType_baseObject_entity val ht
    refine ⟨handle, hent, ?_, ?_⟩
    · rw [ht]
      simp [WriteRawValue, hent, RawValueType.toByte]
    · rw [ht]
      simp [WriteRawValue, hent, le32]
  · intro ht
    rw [ht] at hw ⊢
    cases hs : codec.safeToVector3 val with
    | none => simp [WriteRawValue, hs] at hw
    | some v =>
      obtain ⟨x, y, z⟩ := v
      exact ⟨x, y, z, rfl, by simp [WriteRawValue, hs, RawValueType.toByte],
        by simp [WriteRawValue, hs, le32]⟩
  · intro ht
    rw [ht] at hw ⊢
    cases hs : codec.safeToVector2 val with
    | none => simp [WriteRawValue, hs] at hw
    | some v =>
      obtain ⟨x, y⟩ := v
      exact ⟨x, y, rfl, by simp [WriteRawValue, hs, RawValueType.toByte],
        by simp [WriteRawValue, hs, le32]⟩
  · intro ht
    rw [ht] at hw ⊢
    cases hs : codec.safeToRGBA val with
    | none => simp [WriteRawValue, hs] at hw
    | some v =>
      obtain ⟨r, g, b, a⟩ := v
      exact ⟨r, g, b, a, rfl, by simp [WriteRawValue, hs, RawValueType.toByte],
        by simp [WriteRawValue, hs]⟩

/-- C14 at the Vector3 object of the floats with bit patterns 1, 2, 3. -/
theorem WriteRawValue_layout_witness :
    ∃ x y z, sampleCodec.safeToVector3 (CreateVector3 sampleEnv 1 2 3) = some (x, y, z) ∧
      (WriteRawValue sampleCodec (GetValueType (CreateVector3 sampleEnv 1 2 3))
        (CreateVector3 sampleEnv 1 2 3)).2 = [3] ++ le32 x ++ le32 y ++ le32 z ∧
      (WriteRawValue sampleCodec (GetValueType (CreateVector3 sampleEnv 1 2 3))
        (CreateVector3 sampleEnv 1 2 3)).2.length = 1 + 12 :=
  (WriteRawValue_layout sampleCodec (CreateVector3 sampleEnv 1 2 3) rfl).2.1 rfl

/-- C15, the claim at a server-side handle whose type code is the local-player code (14 in
the sample codec, the player code being 0): the type byte written is 14, not the player
code. -/
theorem WriteRawValue_server_keeps_local_player_type :
    sampleCodec.clientApi = false ∧
    WriteRawValue sampleCodec RawValueType.BASEOBJECT
      (wrapperOf { type := sampleCodec.typeLocalPlayer, id := 7, remoteId := 0, isRemote := false })
      = (true, [2, 7, 0, 0, 0, 14, 1]) ∧
    sampleCodec.typePlayer ≠ 14 := by
  refine ⟨rfl, rfl, ?_⟩
  decide

/-- C15, amended. In a server-side build, for every object bound to a handle, `WriteRawValue`
writes the handle's primary id, the handle's own type code and the locality flag 1; it is
`ReadRawValue` that replaces the local-player type code by the player type code, before it
looks the handle up by id. -/
theorem WriteRawValue_server_baseObject (env : Env) (codec : Codec) (val : V8Value)
    (handle : BaseObject) (hserver : codec.clientApi = false)
    (hent : (traitsOf val).entity = some (some handle)) :
    WriteRawValue codec RawValueType.BASEOBJECT val
      = (true, [2] ++ le32 handle.id ++ [handle.type % 256] ++ [1]) ∧
    ∀ (id : Bytes) (type flag : Nat) (rest : Bytes), id.length = 4 →
      ReadRawValue env codec ([2] ++ (id ++ ([type] ++ ([flag] ++ rest))))
        = (Option.map codec.getOrCreateEntity (codec.getBaseObjectByID
            (if type = codec.typeLocalPlayer then codec.typePlayer else type) (fromLe32 id)),
          rest, []) := by
  constructor
  · simp [WriteRawValue, hent, hserver, RawValueType.toByte]
  · intro id type flag rest hid
    rw [ReadRawValue_baseObject env codec id type flag rest hid]
    simp [hserver]

/-- C15, amended, at the handle of id 7 and type code 14 in the sample server codec. -/
theorem WriteRawValue_server_baseObject_witness :
    WriteRawValue sampleCodec RawValueType.BASEOBJECT
      (wrapperOf { type := 14, id := 7, remoteId := 0, isRemote := false })
      = (true, [2] ++ le32 7 ++ [14 % 256] ++ [1]) ∧
    ∀ (id : Bytes) (type flag : Nat) (rest : Bytes), id.length = 4 →
      ReadRawValue sampleEnv sampleCodec ([2] ++ (id ++ ([type] ++ ([flag] ++ rest))))
        = (Option.map sampleCodec.getOrCreateEntity (sampleCodec.getBaseObjectByID
            (if type = sampleCodec.typeLocalPlayer then sampleCodec.typePlayer else type)
            (fromLe32 id)),
          rest, []) :=
  WriteRawValue_server_baseObject sampleEnv sampleCodec _
    { type := 14, id := 7, remoteId := 0, isRemote := false } rfl rfl

/-- C16. Classifier precedence: `GetValueType` answers `INVALID` for every shared buffer,
promise or proxy whatever else holds; otherwise, for an instance of the base object class,
`INVALID` when the entity or its handle is absent and `BASEOBJECT` when both are present;
otherwise `VECTOR3` if the Vector3 test holds, else `VECTOR2` if the Vector2 test holds, else
`RGBA` if the RGBA test holds, else `GENERIC`; so a value that passes the Vector3 and the
Vector2 test is `VECTOR3`. -/
theorem GetValueType_precedence (val : V8Value) :
    (((traitsOf val).isSharedArrayBuffer = true ∨ (traitsOf val).isPromise = true ∨
        (traitsOf val).isProxy = true) → GetValueType val = RawValueType.INVALID) ∧
    ((traitsOf val).isSharedArrayBuffer = false → (traitsOf val).isPromise = false →
      (traitsOf val).isProxy = false →
      ((traitsOf val).instanceOfBaseObject = some true →
        (((traitsOf val).entity = Option.none ∨ (traitsOf val).entity = some Option.none) →
          GetValueType val = RawValueType.INVALID) ∧
        (∀ handle, (traitsOf val).entity = some (some handle) →
          GetValueType val = RawValueType.BASEOBJECT)) ∧
      ((traitsOf val).instanceOfBaseObject ≠ some true →
        GetValueType val =
          (if (traitsOf val).isVector3 then RawValueType.VECTOR3
            else if (traitsOf val).isVector2 then RawValueType.VECTOR2
            else if (traitsOf val).isRGBA then RawValueType.RGBA
            else RawValueType.GENERIC) ∧
        ((traitsOf val).isVector3 = true → (traitsOf val).isVector2 = true →
          GetValueType val = RawValueType.VECTOR3))) := by
  refine ⟨?_, ?_⟩
  · intro h
    rcases h with h | h | h <;> simp [GetValueType, h]
  · intro hs hp hx
    refine ⟨?_, ?_⟩
    · intro hi
      refine ⟨?_, ?_⟩
      · intro he
        rcases he with he | he <;> simp [GetValueType, hs, hp, hx, hi, he]
      · intro handle he
        simp [GetValueType, hs, hp, hx, hi, he]
    · intro hi
      refine ⟨?_, ?_⟩
      · simp [GetValueType, hs, hp, hx, hi]
      · intro h3 _
        simp [GetValueType, hs, hp, hx, hi, h3]

/-- C17. Invalid values are rejected before anything is written: for a value classified
`INVALID`, `V8ToRawBytes` returns the empty reference without a single call on a serializer
(no header, no magic marker, no payload), and `WriteHostObject` answers `Nothing` without
appending a byte. -/
theorem invalid_rejected_before_write (codec : Codec) (val : V8Value)
    (h : GetValueType val = RawValueType.INVALID) :
    V8ToRawBytes codec val = (Option.none, []) ∧
    (WriteHostObject codec val).1 = Option.none ∧ (WriteHostObject codec val).2.1 = [] := by
  simp [V8ToRawBytes, WriteHostObject, h]

/-- C17 at a promise. -/
theorem invalid_rejected_before_write_witness :
    V8ToRawBytes sampleCodec (V8Value.object { plainTraits with isPromise := true } true [])
      = (Option.none, []) ∧
    (WriteHostObject sampleCodec
      (V8Value.object { plainTraits with isPromise := true } true [])).1 = Option.none ∧
    (WriteHostObject sampleCodec
      (V8Value.object { plainTraits with isPromise := true } true [])).2.1 = [] :=
  invalid_rejected_before_write sampleCodec
    (V8Value.object { plainTraits with isPromise := true } true []) rfl

/-- C18. Unknown frame tag: for a tag byte other than those of `BASEOBJECT`, `VECTOR3`,
`VECTOR2` and `RGBA` (2, 3, 4, 5), `ReadRawValue` makes no value and emits exactly one
record, the `Log::Error` naming the tag; for a known tag followed by fewer bytes than its
payload (6, 12, 8, 4) it makes no value. -/
theorem ReadRawValue_unknown_tag (env : Env) (codec : Codec) (tag : Nat) (rest : Bytes) :
    (tag ≠ 2 → tag ≠ 3 → tag ≠ 4 → tag ≠ 5 →
      (ReadRawValue env codec (tag :: rest)).1 = Option.none ∧
      (ReadRawValue env codec (tag :: rest)).2.2
        = [Diag.logError ("Reading unknown raw value type: " ++ toString tag)] ∧
      (ReadRawValue env codec (tag :: rest)).2.2.length = 1) ∧
    (tag = 2 → rest.length < 6 → (ReadRawValue env codec (tag :: rest)).1 = Option.none) ∧
    (tag = 3 → rest.length < 12 → (ReadRawValue env codec (tag :: rest)).1 = Option.none) ∧
    (tag = 4 → rest.length < 8 → (ReadRawValue env codec (tag :: rest)).1 = Option.none) ∧
    (tag = 5 → rest.length < 4 → (ReadRawValue env codec (tag :: rest)).1 = Option.none) := by
  refine ⟨?_, ?_, ?_, ?_, ?_⟩
  · intro h2 h3 h4 h5
    simp [ReadRawValue, readRawBytes_one_cons, firstByte, RawValueType.toByte, h2, h3, h4, h5]
  · intro ht hlen
    subst ht
    rcases rest with _ | ⟨b0, _ | ⟨b1, _ | ⟨b2, _ | ⟨b3, _ | ⟨b4, _ | ⟨b5, rest⟩⟩⟩⟩⟩⟩ <;>
      first
      | (simp [ReadRawValue, readRawBytes, firstByte, RawValueType.toByte]; done)
      | (exfalso; simp at hlen; omega)
  · intro ht hlen
    subst ht
    rcases rest with _ | ⟨b0, _ | ⟨b1, _ | ⟨b2, _ | ⟨b3, _ | ⟨b4, _ | ⟨b5, _ | ⟨b6, _ | ⟨b7, _ | ⟨b8, _ | ⟨b9, _ | ⟨b10, _ | ⟨b11, rest⟩⟩⟩⟩⟩⟩⟩⟩⟩⟩⟩⟩ <;>
      first
      | (simp [ReadRawValue, readRawBytes, firstByte, RawValueType.toByte]; done)
      | (exfalso; simp at hlen; omega)
  · intro ht hlen
    subst ht
    rcases rest with _ | ⟨b0, _ | ⟨b1, _ | ⟨b2, _ | ⟨b3, _ | ⟨b4, _ | ⟨b5, _ | ⟨b6, _ | ⟨b7, rest⟩⟩⟩⟩⟩⟩⟩⟩ <;>
      first
      | (simp [ReadRawValue, readRawBytes, firstByte, RawValueType.toByte]; done)
      | (exfalso; simp at hlen; omega)
  · intro ht hlen
    subst ht
    rcases rest with _ | ⟨b0, _ | ⟨b1, _ | ⟨b2, _ | ⟨b3, rest⟩⟩⟩⟩ <;>
      first
      | (simp [ReadRawValue, readRawBytes, firstByte, RawValueType.toByte]; done)
      | (exfalso; simp at hlen; omega)

/-- The `BYTE_ARRAY` case of `MValueToV8`: the value `RawBytesToV8` decoded when that decode
succeeds, and otherwise a new array buffer holding the bytes of the ByteArray as the decode
left them, which are the bytes passed in whenever the decode wrote nothing. -/
theorem MValueToV8_byteArray_cases (env : Env) (data : Bytes) :
    (∀ jsVal, (RawBytesToV8 env data).1 = some jsVal →
      MValueToV8 env (MValue.byteArray data) = jsVal) ∧
    ((RawBytesToV8 env data).1 = Option.none →
      MValueToV8 env (MValue.byteArray data)
        = V8Value.arrayBuffer (RawBytesToV8Leaves env data)) ∧
    ((RawBytesToV8 env data).1 = Option.none → RawBytesToV8Leaves env data = data →
      MValueToV8 env (MValue.byteArray data) = V8Value.arrayBuffer data) := by
  refine ⟨?_, ?_, ?_⟩
  · intro jsVal h
    simp [MValueToV8, h]
  · intro h
    simp [MValueToV8, h]
  · intro h hl
    simp [MValueToV8, h, hl]

/-- A client build leaves the bytes it reads as they are. -/
theorem ReadRawValueLeaves_client (codec : Codec) (data : Bytes) (h : codec.clientApi = true) :
    ReadRawValueLeaves codec data = data := by
  unfold ReadRawValueLeaves
  simp only [h, if_true]
  repeat' split
  all_goals rfl

/-- C19. In a server build, at the ByteArray made of the header, the marker and one base
object frame with the local-player type code (14) and an id the registry does not know, the
decode fails after `ReadRawValue` has overwritten the type byte with the player code (0), and
`MValueToV8` returns an array buffer with that altered byte, not the bytes passed in. -/
theorem MValueToV8_byteArray_altered_copy :
    (RawBytesToV8 sampleServerEnv
      [255, 15, 74, 83, 86, 97, 108, 92, 2, 9, 0, 0, 0, 14, 1]).1 = Option.none ∧
    MValueToV8 sampleServerEnv
      (MValue.byteArray [255, 15, 74, 83, 86, 97, 108, 92, 2, 9, 0, 0, 0, 14, 1])
      = V8Value.arrayBuffer [255, 15, 74, 83, 86, 97, 108, 92, 2, 9, 0, 0, 0, 0, 1] ∧
    ([255, 15, 74, 83, 86, 97, 108, 92, 2, 9, 0, 0, 0, 0, 1] : Bytes)
      ≠ [255, 15, 74, 83, 86, 97, 108, 92, 2, 9, 0, 0, 0, 14, 1] := by
  refine ⟨rfl, rfl, ?_⟩
  decide

/-- C20. Minimum length: on a buffer of fewer than 5 bytes `RawBytesToV8` returns no value
and makes no call on a deserializer: none is constructed and no header is read. -/
theorem RawBytesToV8_short_buffer (env : Env) (rawBytes : Bytes) (h : rawBytes.length < 5) :
    RawBytesToV8 env rawBytes = (Option.none, []) := by
  have hlen : rawBytes.length < magicBytes.length := by
    simpa [magicBytes] using h
  simp [RawBytesToV8, hlen]

/-- C20 at the empty buffer. -/
theorem RawBytesToV8_short_buffer_witness :
    RawBytesToV8 sampleEnv [] = (Option.none, []) :=
  RawBytesToV8_short_buffer sampleEnv [] (by decide)

/-! ## Map key collapse -/

theorem mapLoop_empty_key (env : Env) (keyString : String) (hk : keyString.isEmpty = true) :
    ∀ (entries : List (Option V8Value)) (dict : List (String × MValue)),
      (mapLoop env keyString entries dict).1 = dict ∧
      ∀ x, (mapLoop env keyString (x :: entries) dict).1 = dict := by
  intro entries
  induction entries with
  | nil =>
    intro dict
    refine ⟨by simp [mapLoop], ?_⟩
    intro x
    cases x <;> simp [mapLoop, hk]
  | cons e rest ih =>
    intro dict
    refine ⟨(ih dict).2 e, ?_⟩
    intro x
    cases x with
    | none => simp [mapLoop, (ih dict).1]
    | some k =>
      cases e with
      | none => simp [mapLoop, (ih dict).1]
      | some v => simp [mapLoop, hk, (ih dict).1]

theorem mapLoop_collapse (env : Env) (keyString : String) (hk : keyString.isEmpty = false) :
    ∀ (entries : List (Option V8Value)) (dict : List (String × MValue)),
      (dict = [] ∨ ∃ v, dict = [(keyString, v)]) →
      ((mapLoop env keyString entries dict).1 =
        match lastFetchedValue entries with
        | some v => [(keyString, (V8ToMValue env v false).1)]
        | Option.none => dict) ∧
      ∀ x, (mapLoop env keyString (x :: entries) dict).1 =
        match lastFetchedValue (x :: entries) with
        | some v => [(keyString, (V8ToMValue env v false).1)]
        | Option.none => dict := by
  have hset : ∀ (dict : List (String × MValue)) (w : MValue),
      (dict = [] ∨ ∃ v, dict = [(keyString, v)]) → dictSet dict keyString w = [(keyString, w)] := by
    intro dict w hd
    rcases hd with hd | ⟨v, hd⟩ <;> subst hd <;> simp [dictSet]
  intro entries
  induction entries with
  | nil =>
    intro dict hd
    refine ⟨by simp [mapLoop, lastFetchedValue], ?_⟩
    intro x
    cases x with
    | none => simp [mapLoop, lastFetchedValue]
    | some k => simp [mapLoop, lastFetchedValue, hk, hset dict _ hd, V8ToMValue]
  | cons e rest ih =>
    intro dict hd
    refine ⟨(ih dict hd).2 e, ?_⟩
    intro x
    cases x with
    | none => simp [mapLoop, lastFetchedValue, (ih dict hd).1]
    | some k =>
      cases e with
      | none => simp [mapLoop, lastFetchedValue, (ih dict hd).1]
      | some v =>
        have hd2 : dictSet dict keyString (V8ToMValue env v false).1 = [] ∨
            ∃ w, dictSet dict keyString (V8ToMValue env v false).1 = [(keyString, w)] :=
          Or.inr ⟨_, hset dict _ hd⟩
        simp only [mapLoop, lastFetchedValue, hk, Bool.false_eq_true, if_false]
        rw [(ih _ hd2).1]
        cases lastFetchedValue rest with
        | none => simp [hset dict _ hd]
        | some later => simp

/-- C21. Map key collapse: for every Map, `V8ToMValue` writes every entry under one and the
same key, the stringification of the whole map, so the Dict it returns is empty when that
stringification is empty or no pair was fetched, and otherwise holds the single entry of
that key with the conversion (`allowFunction = false`) of the value of the last pair whose
key and value were fetched. -/
theorem V8ToMValue_map_key_collapse (env : Env) (entries : List (Option V8Value))
    (allowFunction : Bool) :
    (V8ToMValue env (V8Value.map entries) allowFunction).1 = MValue.dict
      (if (env.stringify (V8Value.map entries)).isEmpty then []
        else match lastFetchedValue entries with
          | some v => [(env.stringify (V8Value.map entries), (V8ToMValue env v false).1)]
          | Option.none => []) ∧
    ∀ d, (V8ToMValue env (V8Value.map entries) allowFunction).1 = MValue.dict d →
      d.length ≤ 1 ∧ ∀ p ∈ d, p.1 = env.stringify (V8Value.map entries) := by
  have hmain : (V8ToMValue env (V8Value.map entries) allowFunction).1 = MValue.dict
      (if (env.stringify (V8Value.map entries)).isEmpty then []
        else match lastFetchedValue entries with
          | some v => [(env.stringify (V8Value.map entries), (V8ToMValue env v false).1)]
          | Option.none => []) := by
    simp only [V8ToMValue]
    cases hk : (env.stringify (V8Value.map entries)).isEmpty with
    | true =>
      rw [(mapLoop_empty_key env _ hk entries []).1]
      simp
    | false =>
      rw [(mapLoop_collapse env _ hk entries [] (Or.inl rfl)).1]
      simp
  refine ⟨hmain, ?_⟩
  intro d hd
  rw [hmain] at hd
  injection hd with hd
  subst hd
  split
  · simp
  · split <;> simp

/-! ## Base object references in the client build -/

/-- C22. BaseObjectRef codec round trip in a client-side build: for an object bound to a
handle, `WriteRawValue` writes the remote id and the flag 1 when the handle is remote, the
primary id and the flag 0 otherwise; `ReadRawValue` looks the handle up by remote id exactly
when the flag byte is not 0; hence, when the registry resolves the handle under its own
type, id and locality, reading back the written bytes gives the wrapper of that same handle,
and when the registry finds nothing the read makes no value. -/
theorem raw_baseObject_client_roundTrip (env : Env) (codec : Codec) (val : V8Value)
    (handle : BaseObject) (rest : Bytes) (hclient : codec.clientApi = true)
    (hent : (traitsOf val).entity = some (some handle)) (htype : handle.type < 256)
    (hid : handle.id < 4294967296) (hrid : handle.remoteId < 4294967296) :
    WriteRawValue codec RawValueType.BASEOBJECT val
      = (true, [2] ++ le32 (if handle.isRemote then handle.remoteId else handle.id)
          ++ [handle.type % 256] ++ [if handle.isRemote then 1 else 0]) ∧
    (∀ (id : Bytes) (type flag : Nat), id.length = 4 →
      ReadRawValue env codec ([2] ++ (id ++ ([type] ++ ([flag] ++ rest))))
        = (Option.map codec.getOrCreateEntity
            (if flag ≠ 0 then codec.getBaseObjectByRemoteID type (fromLe32 id)
              else codec.getBaseObjectByID type (fromLe32 id)), rest, [])) ∧
    ((if handle.isRemote then codec.getBaseObjectByRemoteID handle.type handle.remoteId
        else codec.getBaseObjectByID handle.type handle.id) = some handle →
      ReadRawValue env codec ((WriteRawValue codec RawValueType.BASEOBJECT val).2 ++ rest)
        = (some (codec.getOrCreateEntity handle), rest, [])) ∧
    ((if handle.isRemote then codec.getBaseObjectByRemoteID handle.type handle.remoteId
        else codec.getBaseObjectByID handle.type handle.id) = Option.none →
      ReadRawValue env codec ((WriteRawValue codec RawValueType.BASEOBJECT val).2 ++ rest)
        = (Option.none, rest, [])) := by
  have hw : WriteRawValue codec RawValueType.BASEOBJECT val
      = (true, [2] ++ le32 (if handle.isRemote then handle.remoteId else handle.id)
          ++ [handle.type % 256] ++ [if handle.isRemote then 1 else 0]) := by
    simp [WriteRawValue, hent, hclient, RawValueType.toByte]
  have hread : ∀ (id : Bytes) (type flag : Nat), id.length = 4 →
      ReadRawValue env codec ([2] ++ (id ++ ([type] ++ ([flag] ++ rest))))
        = (Option.map codec.getOrCreateEntity
            (if flag ≠ 0 then codec.getBaseObjectByRemoteID type (fromLe32 id)
              else codec.getBaseObjectByID type (fromLe32 id)), rest, []) := by
    intro id type flag hlen
    rw [ReadRawValue_baseObject env codec id type flag rest hlen]
    simp [hclient]
  have hback : ReadRawValue env codec ((WriteRawValue codec RawValueType.BASEOBJECT val).2 ++ rest)
      = (Option.map codec.getOrCreateEntity
          (if handle.isRemote then codec.getBaseObjectByRemoteID handle.type handle.remoteId
            else codec.getBaseObjectByID handle.type handle.id), rest, []) := by
    rw [hw]
    have hb : ([2] ++ le32 (if handle.isRemote then handle.remoteId else handle.id)
          ++ [handle.type % 256] ++ [if handle.isRemote then 1 else 0]) ++ rest
        = [2] ++ (le32 (if handle.isRemote then handle.remoteId else handle.id)
          ++ ([handle.type % 256] ++ ([if handle.isRemote then 1 else 0] ++ rest))) := by
      simp only [List.append_assoc]
    simp only []
    rw [hb, hread (le32 (if handle.isRemote then handle.remoteId else handle.id)) _ _ rfl,
      Nat.mod_eq_of_lt htype]
    cases hr : handle.isRemote with
    | true => simp [fromLe32_le32 _ hrid]
    | false => simp [fromLe32_le32 _ hid]
  refine ⟨hw, hread, ?_, ?_⟩
  · intro hres
    rw [hback, hres]
    rfl
  · intro hres
    rw [hback, hres]
    rfl

/-- C22 at the remote handle of type 1, id 1 and remote id 101, which the sample registry
resolves by remote id. -/
theorem raw_baseObject_client_roundTrip_witness :
    ReadRawValue sampleEnv sampleClientCodec
      ((WriteRawValue sampleClientCodec RawValueType.BASEOBJECT
        (wrapperOf { type := 1, id := 1, remoteId := 101, isRemote := true })).2 ++ [])
      = (some (sampleClientCodec.getOrCreateEntity
          { type := 1, id := 1, remoteId := 101, isRemote := true }), [], []) :=
  (raw_baseObject_client_roundTrip sampleEnv sampleClientCodec
    (wrapperOf { type := 1, id := 1, remoteId := 101, isRemote := true })
    { type := 1, id := 1, remoteId := 101, isRemote := true } [] rfl rfl (by decide) (by decide)
    (by decide)).2.2.1 rfl

/-! ## Call depth of `MValueToV8` -/

theorem nestingDepth_pos (v : MValue) : 1 ≤ nestingDepth v := by
  cases v <;> simp [nestingDepth]

mutual
theorem MValueToV8Bounded_spec (env : Env) :
    ∀ (v : MValue) (frames : Nat),
      (nestingDepth v ≤ frames → MValueToV8Bounded env v frames = some (MValueToV8 env v)) ∧
      (frames < nestingDepth v → MValueToV8Bounded env v frames = Option.none)
  | .list items, 0 => by simp [nestingDepth, MValueToV8Bounded]
  | .list items, frames + 1 => by
    have ih := listLoopBounded_spec env items frames
    constructor
    · intro h
      have h1 : nestingDepthItems items ≤ frames := by
        simp only [nestingDepth] at h
        omega
      simp [MValueToV8Bounded, MValueToV8, ih.1 h1]
    · intro h
      have h1 : frames < nestingDepthItems items := by
        simp only [nestingDepth] at h
        omega
      simp [MValueToV8Bounded, ih.2 h1]
  | .dict entries, 0 => by simp [nestingDepth, MValueToV8Bounded]
  | .dict entries, frames + 1 => by
    have ih := dictLoopBounded_spec env entries frames []
    constructor
    · intro h
      have h1 : nestingDepthEntries entries ≤ frames := by
        simp only [nestingDepth] at h
        omega
      simp [MValueToV8Bounded, MValueToV8, ih.1 h1]
    · intro h
      have h1 : frames < nestingDepthEntries entries := by
        simp only [nestingDepth] at h
        omega
      simp [MValueToV8Bounded, ih.2 h1]
  | .none, frames => by cases frames <;> simp [nestingDepth, MValueToV8Bounded, MValueToV8]
  | .nil, frames => by cases frames <;> simp [nestingDepth, MValueToV8Bounded, MValueToV8]
  | .bool _, frames => by cases frames <;> simp [nestingDepth, MValueToV8Bounded, MValueToV8]
  | .int n, frames => by
    cases frames with
    | zero => simp [nestingDepth, MValueToV8Bounded]
    | succ f =>
      simp only [nestingDepth, MValueToV8Bounded, MValueToV8]
      constructor
      · intro _
        split <;> rfl
      · intro h
        omega
  | .uint n, frames => by
    cases frames with
    | zero => simp [nestingDepth, MValueToV8Bounded]
    | succ f =>
      simp only [nestingDepth, MValueToV8Bounded, MValueToV8]
      constructor
      · intro _
        split <;> rfl
      · intro h
        omega
  | .double _, frames => by cases frames <;> simp [nestingDepth, MValueToV8Bounded, MValueToV8]
  | .string _, frames => by cases frames <;> simp [nestingDepth, MValueToV8Bounded, MValueToV8]
  | .baseObject _, frames => by
    cases frames <;> simp [nestingDepth, MValueToV8Bounded, MValueToV8]
  | .function fn, frames => by
    cases frames with
    | zero => simp [nestingDepth, MValueToV8Bounded]
    | succ f =>
      simp only [nestingDepth, MValueToV8Bounded, MValueToV8]
      constructor
      · intro _
        cases env.newFunction fn <;> rfl
      · intro h
        omega
  | .vector3 _ _ _, frames => by
    cases frames <;> simp [nestingDepth, MValueToV8Bounded, MValueToV8]
  | .vector2 _ _, frames => by
    cases frames <;> simp [nestingDepth, MValueToV8Bounded, MValueToV8]
  | .rgba _ _ _ _, frames => by
    cases frames <;> simp [nestingDepth, MValueToV8Bounded, MValueToV8]
  | .byteArray data, frames => by
    cases frames with
    | zero => simp [nestingDepth, MValueToV8Bounded]
    | succ f =>
      simp only [nestingDepth, MValueToV8Bounded, MValueToV8]
      constructor
      · intro _
        cases (RawBytesToV8 env data).1 <;> rfl
      · intro h
        omega
theorem listLoopBounded_spec (env : Env) :
    ∀ (items : List MValue) (frames : Nat),
      (nestingDepthItems items ≤ frames →
        listLoopBounded env items frames = some (listLoop env items)) ∧
      (frames < nestingDepthItems items → listLoopBounded env items frames = Option.none)
  | [], frames => by simp [nestingDepthItems, listLoopBounded, listLoop]
  | item :: rest, frames => by
    have ihv := MValueToV8Bounded_spec env item frames
    have ihr := listLoopBounded_spec env rest frames
    constructor
    · intro h
      simp only [nestingDepthItems] at h
      have h1 : nestingDepth item ≤ frames := le_trans (le_max_left _ _) h
      have h2 : nestingDepthItems rest ≤ frames := le_trans (le_max_right _ _) h
      simp [listLoopBounded, listLoop, ihv.1 h1, ihr.1 h2]
    · intro h
      simp only [nestingDepthItems] at h
      rcases lt_max_iff.mp h with h1 | h2
      · simp [listLoopBounded, ihv.2 h1]
      · simp only [listLoopBounded, ihr.2 h2]
        cases MValueToV8Bounded env item frames <;> rfl
theorem dictLoopBounded_spec (env : Env) :
    ∀ (entries : List (String × MValue)) (frames : Nat) (props : List (String × V8Value)),
      (nestingDepthEntries entries ≤ frames →
        dictLoopBounded env entries frames props = some (dictLoop env entries props)) ∧
      (frames < nestingDepthEntries entries →
        dictLoopBounded env entries frames props = Option.none)
  | [], frames, props => by simp [nestingDepthEntries, dictLoopBounded, dictLoop]
  | (key, value) :: rest, frames, props => by
    have ihv := MValueToV8Bounded_spec env value frames
    constructor
    · intro h
      simp only [nestingDepthEntries] at h
      have h1 : nestingDepth value ≤ frames := le_trans (le_max_left _ _) h
      have h2 : nestingDepthEntries rest ≤ frames := le_trans (le_max_right _ _) h
      have ihr := dictLoopBounded_spec env rest frames (objectSet props key (MValueToV8 env value))
      simp [dictLoopBounded, dictLoop, ihv.1 h1, ihr.1 h2]
    · intro h
      simp only [nestingDepthEntries] at h
      rcases lt_max_iff.mp h with h1 | h2
      · simp [dictLoopBounded, ihv.2 h1]
      · simp only [dictLoopBounded]
        cases hb : MValueToV8Bounded env value frames with
        | none => rfl
        | some v =>
          exact (dictLoopBounded_spec env rest frames (objectSet props key v)).2 h2
end

/-- C23. Termination of `MValueToV8`: the function is total on the finite trees of `MValue`,
and run with room for `frames` nested activations it returns its result exactly when
`frames` is at least the nesting depth of the input and runs out of room otherwise; a value
that is no List and no Dict needs a single activation, the only nested calls being those on
the items of a List and the values of a Dict. -/
theorem MValueToV8_call_depth (env : Env) (v : MValue) (frames : Nat) :
    (nestingDepth v ≤ frames → MValueToV8Bounded env v frames = some (MValueToV8 env v)) ∧
    (frames < nestingDepth v → MValueToV8Bounded env v frames = Option.none) ∧
    ((∀ items, v ≠ MValue.list items) → (∀ entries, v ≠ MValue.dict entries) →
      nestingDepth v = 1 ∧ MValueToV8Bounded env v 1 = some (MValueToV8 env v)) := by
  refine ⟨(MValueToV8Bounded_spec env v frames).1, (MValueToV8Bounded_spec env v frames).2, ?_⟩
  intro hl hd
  have h1 : nestingDepth v = 1 := by
    cases v with
    | list items => exact absurd rfl (hl items)
    | dict entries => exact absurd rfl (hd entries)
    | _ => rfl
  exact ⟨h1, (MValueToV8Bounded_spec env v 1).1 (by omega)⟩

end V8Helpers
